import Mathlib

/-!
Shallow embedding of the ParallelHashMapBenchmark custom hash map
(`src/custom_hashmap`): the power-of-two size table (`magic_num_util.h`),
the counting spin lock (`spin_lock.cpp`), the intrusive linked list
(`simple_linked_list.h`), the fixed-size bitmap slot pool
(`fixedsize_object_pool.h`), the paging object pool with its lock-free
free-page list (`paging_object_pool.h`) and the sharded hash map
(`hash_map.h`).

All operations are modelled sequentially (single caller thread): every
atomic read-modify-write takes effect immediately and every CAS whose
expected value matches succeeds on the first attempt.  Loops that can
only terminate through interference from another thread are modelled as
`Option` results where `none` marks divergence (or a fatal fault such as
a null-pointer dereference).  Machine words are `Nat` with explicit
`% 2 ^ 32` / `% 2 ^ 64` where wrap-around is reachable.

The 64-bit hash (`hash_type.h`, not part of the sources) is kept as an
explicit function parameter `hFn`; every definition below is parametric
in it, mirroring the configurable `hash_fn` of the design.
-/

namespace PklE

/-! ### magic_num_util.h -/

/-- The power-of-two size table `Util::c_powerOfTwoTable` (entries `2^0 .. 2^31`). -/
def c_powerOfTwoTable : List Nat :=
  [1, 2, 4, 8, 16, 32, 64, 128,
   256, 512, 1024, 2048, 4096, 8192,
   16384, 32768, 65536, 131072, 262144,
   524288, 1048576, 2097152, 4194304,
   8388608, 16777216, 33554432, 67108864,
   134217728, 268435456, 536870912,
   1073741824, 2147483648]

/-- `Util::GetNextPowerOfTwo`: first table entry `≥ value`, else the largest entry. -/
def GetNextPowerOfTwo (value : Nat) : Nat :=
  match c_powerOfTwoTable.find? (fun p => value ≤ p) with
  | some p => p
  | none => 2147483648

/-! ### spin_lock.cpp : CountingSpinlock -/

/-- `CountingSpinlock::c_multiReaderWriter_WriteIncrement`. -/
def c_multiReaderWriter_WriteIncrement : Nat := 0x10000

/-- `CountingSpinlock::c_multiReaderWriter_WriteMask`. -/
def c_multiReaderWriter_WriteMask : Nat := 0xFFFF0000

/-- `CountingSpinlock::c_multiReaderWriter_ReadMask`. -/
def c_multiReaderWriter_ReadMask : Nat := 0x0000FFFF

/-- `Util::AtomicAddU32`: returns the updated 32-bit word. -/
def AtomicAddU32 (value addend : Nat) : Nat := (value + addend) % 2 ^ 32

/-- `Util::AtomicSubtractU32`: returns the updated 32-bit word
(two's-complement wrap for `subtrahend < 2^32`). -/
def AtomicSubtractU32 (value subtrahend : Nat) : Nat :=
  (value + (2 ^ 32 - subtrahend % 2 ^ 32)) % 2 ^ 32

/-- Result of one body iteration of a lock-acquisition loop: whether the
loop broke out with the lock held, and the lock word it left behind. -/
structure LockAttempt where
  acquired : Bool
  word : Nat
  deriving DecidableEq, Repr

/-- One iteration of the do-while body of
`CountingSpinlock::AcquireMultiReaderWriterWriteAccess` (spin_lock.cpp
lines 369-396), acting on the current lock word `w`: fetch-add the write
increment; break out with the lock held when the reader field of the
result is zero, otherwise undo the increment (the subsequent spin waits
on the reader field, see `AcquireMultiReaderWriterWriteAccess_waitCond`). -/
def AcquireMultiReaderWriterWriteAccess_attempt (w : Nat) : LockAttempt :=
  let nextVal := AtomicAddU32 w c_multiReaderWriter_WriteIncrement
  if nextVal &&& c_multiReaderWriter_ReadMask = 0 then
    { acquired := true, word := nextVal }
  else
    { acquired := false,
      word := AtomicSubtractU32 nextVal c_multiReaderWriter_WriteIncrement }

/-- Spin condition of `AcquireMultiReaderWriterWriteAccess` after a failed
attempt: the code loops `while ((lockValue & c_multiReaderWriter_ReadMask) != 0)`. -/
def AcquireMultiReaderWriterWriteAccess_waitCond (w : Nat) : Bool :=
  (w &&& c_multiReaderWriter_ReadMask) != 0

/-! ### simple_linked_list.h : SimpleLinkedList

Nodes are identified by pool-slot indices (`Nat`); a `Node_T*` is an
`Option Nat` (`none` is the null pointer).  A list value is the sequence
of node ids from `pHead` along `pNext`. -/

/-- `SimpleLinkedList::Insert` (locked head-insert; the CAS on `pHead`
succeeds on its first attempt in the sequential model). -/
def SimpleLinkedList.Insert (newNode : Option Nat) (l : List Nat) : Bool × List Nat :=
  match newNode with
  | none => (false, l)
  | some n => (true, n :: l)

/-- `SimpleLinkedList::Insert_Unsafe` (same head-insert without locking). -/
def SimpleLinkedList.InsertNoLock (newNode : Option Nat) (l : List Nat) : Bool × List Nat :=
  match newNode with
  | none => (false, l)
  | some n => (true, n :: l)

/-! ### fixedsize_object_pool.h : FixedSizeObjectPool

The slot count `Size_T` is a parameter `N`; `sizeof(Node)` is a parameter
`szNode`.  The allocation bitmap `bAllocatedBits` is the list `words` of
8-bit bytes (`ByteType = uint8`, so `c_bitIndexSize = 8` and
`c_bitIndexSizeLog2 = 3`).  A `const T*` argument is modelled by its byte
offset from the start of the `nodes` array (an `Int`, so that pointers
below the array are representable).  `destroyedCount` counts the
`Util::Destroy` calls the pool has performed (an observer used to state
that a rejected release destroys nothing). -/

structure FixedSizeObjectPool where
  words : List Nat
  numAllocated : Nat
  cachedIteratorIndex : Nat
  destroyedCount : Nat
  deriving DecidableEq, Repr

/-- `FixedSizeObjectPool::GetIndex`: recover the slot index from a pointer
(byte offset `ptrDiff`); `N` (i.e. `c_InvalidIndex = Size_T`) marks an
invalid pointer.  The source checks `pNode >= nodes`, divides the byte
difference by `sizeof(Node)` and requires a zero remainder and an
in-range quotient. -/
def FixedSizeObjectPool.GetIndex (szNode N : Nat) (ptrDiff : Int) : Nat :=
  if 0 ≤ ptrDiff then
    let d := ptrDiff.toNat
    let nodeIndex := d / szNode
    let remainder := d % szNode
    if nodeIndex < N ∧ remainder = 0 then nodeIndex else N
  else N

/-- `FixedSizeObjectPool::IsAllocated`: test the allocation bit of a slot. -/
def FixedSizeObjectPool.IsAllocated (p : FixedSizeObjectPool) (N nodeIndex : Nat) : Bool :=
  if nodeIndex != N then
    let byteIndex := nodeIndex >>> 3
    let bitIndex := nodeIndex &&& 7
    let byte := p.words.getD byteIndex 0
    let mask := (1 : Nat) <<< bitIndex
    (byte &&& mask) != 0
  else false

/-- `FixedSizeObjectPool::SetAllocated`: atomically or the slot's bit into
its byte; succeeds iff the bit was previously clear. -/
def FixedSizeObjectPool.SetAllocated (p : FixedSizeObjectPool) (N nodeIndex : Nat) :
    Bool × FixedSizeObjectPool :=
  if nodeIndex < N then
    let byteIndex := nodeIndex >>> 3
    let bitIndex := nodeIndex &&& 7
    let mask := (1 : Nat) <<< bitIndex
    let prevValue := p.words.getD byteIndex 0
    ((prevValue &&& mask) == 0,
     { p with words := p.words.set byteIndex (prevValue ||| mask) })
  else (false, p)

/-- `FixedSizeObjectPool::SetDeallocated`: atomically and the complement of
the slot's bit into its byte; succeeds iff the bit was previously set.
`~` is complement within the 8-bit `ByteType`, i.e. xor with `0xFF`. -/
def FixedSizeObjectPool.SetDeallocated (p : FixedSizeObjectPool) (N nodeIndex : Nat) :
    Bool × FixedSizeObjectPool :=
  if nodeIndex < N then
    let byteIndex := nodeIndex >>> 3
    let bitIndex := nodeIndex &&& 7
    let mask := (255 : Nat) ^^^ ((1 : Nat) <<< bitIndex)
    let prevVal := p.words.getD byteIndex 0
    ((prevVal &&& ((255 : Nat) ^^^ mask)) != 0,
     { p with words := p.words.set byteIndex (prevVal &&& mask) })
  else (false, p)

/-- Result of `FixedSizeObjectPool::Release`. -/
structure FSReleaseResult where
  released : Bool
  pool : FixedSizeObjectPool
  deriving DecidableEq, Repr

/-- `FixedSizeObjectPool::Release` (fixedsize_object_pool.h lines 381-406):
validate the pointer with `GetIndex`; if the index is in range and its
bit is set, destroy the object, clear the bit, and on success decrement
`numAllocated`; otherwise return `false` without touching anything. -/
def FixedSizeObjectPool.Release (szNode N : Nat) (p : FixedSizeObjectPool)
    (ptrDiff : Int) : FSReleaseResult :=
  let nodeIndex := FixedSizeObjectPool.GetIndex szNode N ptrDiff
  if nodeIndex < N then
    if p.IsAllocated N nodeIndex then
      let p1 := { p with destroyedCount := p.destroyedCount + 1 }
      let r := p1.SetDeallocated N nodeIndex
      if r.1 then
        { released := true, pool := { r.2 with numAllocated := r.2.numAllocated - 1 } }
      else
        { released := false, pool := r.2 }
    else
      { released := false, pool := p }
  else
    { released := false, pool := p }

/-- The body of `FixedSizeObjectPool::Reserve`'s bounded scan, with `fuel`
iterations of the `for` loop remaining and `currentIndex` the rotating
probe position.  Returns the reserved slot index (if any) and the pool. -/
def FixedSizeObjectPool.ReserveLoop (N : Nat) :
    Nat → Nat → FixedSizeObjectPool → Option Nat × FixedSizeObjectPool
  | 0, _, p => (none, p)
  | fuel + 1, currentIndex, p =>
    let ci := if currentIndex ≥ N then 0 else currentIndex
    if p.numAllocated ≥ N then (none, p)
    else if !(p.IsAllocated N ci) then
      let r := p.SetAllocated N ci
      if r.1 then
        let p2 := { r.2 with cachedIteratorIndex := ci + 1, numAllocated := r.2.numAllocated + 1 }
        (some ci, p2)
      else FixedSizeObjectPool.ReserveLoop N fuel (ci + 1) r.2
    else FixedSizeObjectPool.ReserveLoop N fuel (ci + 1) p

/-- `FixedSizeObjectPool::Reserve` (construction of the `T` is carried by
the caller; here only the slot bookkeeping is modelled): scan at most `N`
slots starting from the cached rotating index. -/
def FixedSizeObjectPool.Reserve (N : Nat) (p : FixedSizeObjectPool) :
    Option Nat × FixedSizeObjectPool :=
  FixedSizeObjectPool.ReserveLoop N N p.cachedIteratorIndex p

/-- A fresh `FixedSizeObjectPool` with all `N/8` bitmap bytes clear. -/
def FixedSizeObjectPool.empty (N : Nat) : FixedSizeObjectPool :=
  { words := List.replicate (N >>> 3) 0, numAllocated := 0,
    cachedIteratorIndex := 0, destroyedCount := 0 }

/-! ### paging_object_pool.h : PagingObjectPool

One `Page` carries a fixed-size slot pool of capacity `P` (`c_PageSize`),
its own index in the page vector, and the free-page-list link
`nextFreeIndex`.  The packed 64-bit free-list head word is modelled as a
`Nat` manipulated with exactly the masks and shifts of the source. -/

/-- `PagingObjectPool::c_InvalidPageIndex` (28-bit max). -/
def c_InvalidPageIndex : Nat := 0x0FFFFFFF

/-- `PagingObjectPool::c_TailPageIndex` (empty-list sentinel). -/
def c_TailPageIndex : Nat := 0x0FFFFFFE

/-- `PagingObjectPool::c_SwappingPageIndex` (transient push marker). -/
def c_SwappingPageIndex : Nat := 0x0FFFFFFD

/-- `PagingObjectPool::c_MaxPages`. -/
def c_MaxPages : Nat := c_TailPageIndex - 1

/-- `PagingObjectPool::c_headPageIndexMask` (bits 0..27). -/
def c_headPageIndexMask : Nat := 0x0FFFFFFF

/-- `PagingObjectPool::c_headNextIndexMask` (bits 28..55). -/
def c_headNextIndexMask : Nat := (0x0FFFFFFF : Nat) <<< 28

/-- `PagingObjectPool::c_headCounterMask` (bits 56..63). -/
def c_headCounterMask : Nat := (0xFF : Nat) <<< 56

/-- `PagingObjectPool::c_emptyFreeListHeadIndex`: head and next both `TAIL`. -/
def c_emptyFreeListHeadIndex : Nat :=
  (c_TailPageIndex <<< 28) ||| c_TailPageIndex

/-- Build a free-list head word from counter, next-link index and head index
(the `nextFreeListHeadIndex` expression of `PushPageToFreeList` /
`PopPageFromFreeList`). -/
def packHeadWord (counter nextIndex headIndex : Nat) : Nat :=
  (counter <<< 56) ||| (nextIndex <<< 28) ||| headIndex

/-- A `PagingObjectPool::Page`: inner slot pool, stamped page index,
free-list link. -/
structure Page where
  data : FixedSizeObjectPool
  pageIndex : Nat
  nextFreeIndex : Nat
  deriving DecidableEq, Repr

/-- The `PagingObjectPool` state: the grow-only page vector (`pPageList`
with `numPages` as a separate field, as in the source), the packed
free-list head word and the live-object counter. -/
structure PagingObjectPool where
  pageList : List Page
  numPages : Nat
  freeListHeadIndex : Nat
  count : Nat
  deriving DecidableEq, Repr

/-- A fresh `PagingObjectPool` (constructor plus field initializers). -/
def PagingObjectPool.empty : PagingObjectPool :=
  { pageList := [], numPages := 0,
    freeListHeadIndex := c_emptyFreeListHeadIndex, count := 0 }

/-- The `nextFreeIndex` of page `p`, reading out of range as
`c_InvalidPageIndex` (a fresh page's initial value). -/
def PagingObjectPool.nextFreeOf (st : PagingObjectPool) (p : Nat) : Nat :=
  match st.pageList[p]? with
  | some pg => pg.nextFreeIndex
  | none => c_InvalidPageIndex

/-- `PagingObjectPool::PushPageToFreeList` (paging_object_pool.h lines
71-109) on the page at index `pIdx`, sequentially: if the page's
`nextFreeIndex` is not `INVALID` the initial CAS loop aborts and nothing
is written; otherwise the page is marked `SWAPPING`, the head word is
read, the page's link is published and the head CAS succeeds.  `none` is
the diverging assert path for malformed head indices. -/
def PagingObjectPool.PushPageToFreeList (st : PagingObjectPool) (pIdx : Nat) :
    Option PagingObjectPool :=
  match st.pageList[pIdx]? with
  | none => some st
  | some page =>
    if page.nextFreeIndex = c_InvalidPageIndex then
      let currFreeListHeadIndex := st.freeListHeadIndex
      let currFreeListHeadPageIndex := currFreeListHeadIndex &&& c_headPageIndexMask
      let currCounter := (currFreeListHeadIndex &&& c_headCounterMask) >>> 56
      let nextHeadPageIndex := page.pageIndex
      let nextHeadNextIndex := currFreeListHeadPageIndex
      let nextCounter := (currCounter + 1) % 256
      if nextHeadPageIndex < st.numPages ∧
          (nextHeadNextIndex < st.numPages ∨ nextHeadNextIndex = c_TailPageIndex) then
        let nextFreeListHeadIndex := packHeadWord nextCounter nextHeadNextIndex nextHeadPageIndex
        let page' := { page with nextFreeIndex := currFreeListHeadPageIndex }
        some { st with pageList := st.pageList.set pIdx page',
                       freeListHeadIndex := nextFreeListHeadIndex }
      else none
    else some st

/-- `PagingObjectPool::PopPageFromFreeList` (paging_object_pool.h lines
111-167), sequentially: read the head word; an empty list returns the
null page (`none` inside); otherwise the head CAS succeeds, the popped
page's `nextFreeIndex` is reset to `INVALID`, and the page index is
returned.  The outer `none` covers the paths that retry forever (or
assert) in a single-threaded run. -/
def PagingObjectPool.PopPageFromFreeList (st : PagingObjectPool) :
    Option (Option Nat × PagingObjectPool) :=
  let currFreeListHeadIndex := st.freeListHeadIndex
  let currFreeListHeadPageIndex := currFreeListHeadIndex &&& c_headPageIndexMask
  let currFreeListHeadNextIndex := (currFreeListHeadIndex &&& c_headNextIndexMask) >>> 28
  let currCounter := (currFreeListHeadIndex &&& c_headCounterMask) >>> 56
  if currFreeListHeadPageIndex < st.numPages then
    let pNextPage := if currFreeListHeadNextIndex < st.numPages then
        st.pageList[currFreeListHeadNextIndex]?
      else none
    let nextHeadPageIndex := currFreeListHeadNextIndex
    let nextHeadNextIndex := match pNextPage with
      | some pg => pg.nextFreeIndex
      | none => c_TailPageIndex
    let nextCounter := (currCounter + 1) % 256
    if nextHeadNextIndex ≠ c_InvalidPageIndex ∧ nextHeadNextIndex ≠ c_SwappingPageIndex then
      let nextFreeListHeadIndex := packHeadWord nextCounter nextHeadNextIndex nextHeadPageIndex
      match st.pageList[currFreeListHeadPageIndex]? with
      | some pg =>
        let pg' := { pg with nextFreeIndex := c_InvalidPageIndex }
        some (some currFreeListHeadPageIndex,
              { st with freeListHeadIndex := nextFreeListHeadIndex,
                        pageList := st.pageList.set currFreeListHeadPageIndex pg' })
      | none => none
    else none
  else if currFreeListHeadPageIndex = c_TailPageIndex then
    some (none, st)
  else none

/-- `PagingObjectPool::AllocateNewPage` with an external allocation budget:
`budget = 0` means `Util::NewAligned` returns null, after which the
source immediately writes `pNewPage->pageIndex` through the null pointer
(`none` = crash).  Otherwise the page vector grows by one page (the
`pageCapacity` doubling only re-allocates the vector storage and is not
observable here) and the fresh page is pushed onto the free list. -/
def PagingObjectPool.AllocateNewPage (P : Nat) (st : PagingObjectPool) (budget : Nat) :
    Option (PagingObjectPool × Nat) :=
  match budget with
  | 0 => none
  | b + 1 =>
    let newNumPages := st.numPages + 1
    let newPageIndex := newNumPages - 1
    let newPage : Page := { data := FixedSizeObjectPool.empty P,
                            pageIndex := newPageIndex,
                            nextFreeIndex := c_InvalidPageIndex }
    let st1 := { st with numPages := newNumPages, pageList := st.pageList ++ [newPage] }
    match st1.PushPageToFreeList newPageIndex with
    | some st2 => some (st2, b)
    | none => none

/-- Outcome of `PagingObjectPool::Reserve`. -/
inductive PReserveOutcome where
  /-- a node was reserved (page index, slot index) -/
  | gotNode (pageIdx slotIdx : Nat)
  /-- the function returned a null pointer -/
  | nullReturn
  /-- a fatal fault: null-pointer dereference or a diverging retry loop -/
  | crash
  /-- the iteration bound of the model was exhausted -/
  | outOfFuel
  deriving DecidableEq, Repr

/-- The do-while loop of `PagingObjectPool::Reserve` (paging_object_pool.h
lines 363-399): pop a page with free space; if the pop yields null,
allocate a new page and retry; otherwise reserve a slot from the page's
inner pool, and on success push the page back unless it became full.
The loop only exits by producing a node; the trailing null check and
assert are dead code. -/
def PagingObjectPool.ReserveLoop (P : Nat) :
    Nat → Nat → PagingObjectPool → PReserveOutcome × PagingObjectPool × Nat
  | budget, 0, st => (PReserveOutcome.outOfFuel, st, budget)
  | budget, fuel + 1, st =>
    match st.PopPageFromFreeList with
    | none => (PReserveOutcome.crash, st, budget)
    | some (some pageIdx, st1) =>
      match st1.pageList[pageIdx]? with
      | none => (PReserveOutcome.crash, st1, budget)
      | some page =>
        let r := FixedSizeObjectPool.Reserve P page.data
        match r.1 with
        | some slotIdx =>
          let st2 := { st1 with pageList := st1.pageList.set pageIdx { page with data := r.2 },
                                count := (st1.count + 1) % 2 ^ 32 }
          if r.2.numAllocated == P then
            (PReserveOutcome.gotNode pageIdx slotIdx, st2, budget)
          else
            match st2.PushPageToFreeList pageIdx with
            | some st3 => (PReserveOutcome.gotNode pageIdx slotIdx, st3, budget)
            | none => (PReserveOutcome.crash, st2, budget)
        | none => PagingObjectPool.ReserveLoop P budget fuel st1
    | some (none, st1) =>
      match st1.AllocateNewPage P budget with
      | some (st2, b) => PagingObjectPool.ReserveLoop P b fuel st2
      | none => (PReserveOutcome.crash, st1, budget)

/-- `PagingObjectPool::Reserve` with an allocation `budget` and an
iteration bound `fuel` for the retry loop. -/
def PagingObjectPool.Reserve (P budget fuel : Nat) (st : PagingObjectPool) :
    PReserveOutcome × PagingObjectPool × Nat :=
  PagingObjectPool.ReserveLoop P budget fuel st

/-- Executable chain check for the free-page list: starting from the
abstract stack `fl` of enqueued page indices, each page's `nextFreeIndex`
names the next entry, and the last one carries `TAIL`. -/
def PagingObjectPool.chainOkB (st : PagingObjectPool) : List Nat → Bool
  | [] => true
  | [p] => st.nextFreeOf p == c_TailPageIndex
  | p :: q :: rest => (st.nextFreeOf p == q) && PagingObjectPool.chainOkB st (q :: rest)

/-- Invariant of the lock-free free-page list at quiescence, with `fl` the
abstract list of enqueued page indices (head first).  It ties the packed
head word to `fl`, requires the on-page links to spell out `fl`, and
forces every live page off the list to carry `INVALID`. -/
abbrev FreeListInv (st : PagingObjectPool) (fl : List Nat) : Prop :=
  st.numPages = st.pageList.length ∧
  st.numPages ≤ c_MaxPages ∧
  (∀ i, i < st.numPages → (st.pageList[i]?).map Page.pageIndex = some i) ∧
  fl.Nodup ∧
  (∀ p ∈ fl, p < st.numPages) ∧
  (st.freeListHeadIndex &&& c_headPageIndexMask) = fl.headD c_TailPageIndex ∧
  ((st.freeListHeadIndex &&& c_headNextIndexMask) >>> 28) = (fl.drop 1).headD c_TailPageIndex ∧
  PagingObjectPool.chainOkB st fl = true ∧
  (∀ p, p < st.numPages → p ∉ fl → st.nextFreeOf p = c_InvalidPageIndex)

/-! ### hash_map.h : HashMap

Keys and values are `Nat` (the benchmark instantiates `Key_T = Value_T =
uint64_t`).  A `Node` is the `HashMap::Node` payload `{key, value,
bucket}`; the intrusive `pNext` chain is carried by the bucket lists.
The shared `PagingObjectPool<Node>` is modelled as the slot store `Pool`
below: `Reserve` constructs a node in the first free slot (growing when
full — the paging pool grows by new pages and never refuses), `Release`
destroys the slot, and `count` tracks live objects exactly as the paging
pool's counter does (incremented by a successful `Reserve`, decremented
by a successful `Release`).  A `KeyValuePair*` / `Node*` is a slot index. -/

/-- `HashMap::Node::c_invalidBucket`. -/
def c_invalidBucket : Nat := 0xFFFFFFFF

/-- `HashMap::Node::c_reassigningBucket`. -/
def c_reassigningBucket : Nat := 0xFFFFFFFE

/-- The `HashMap::Node` payload: key, value and the bucket backpointer. -/
structure Node where
  key : Nat
  value : Nat
  bucket : Nat
  deriving DecidableEq, Repr

/-- The shared node pool: slot `id` holds `some node` while allocated.
`count` is `PagingObjectPool::count` (read by `Size`). -/
structure Pool where
  slots : List (Option Node)
  count : Nat
  deriving DecidableEq, Repr

/-- Dereference a node pointer. -/
def Pool.get (p : Pool) (id : Nat) : Option Node :=
  p.slots.getD id none

/-- `PagingObjectPool::Reserve` at the map level: construct
`Node(key, value)` (its `bucket` field initializer is `c_invalidBucket`)
in the first free slot, growing the store when none is free, and
increment the pool count. -/
def Pool.Reserve (p : Pool) (key value : Nat) : Nat × Pool :=
  let node : Node := { key := key, value := value, bucket := c_invalidBucket }
  match p.slots.findIdx? (fun s => s.isNone) with
  | some i => (i, { slots := p.slots.set i (some node), count := p.count + 1 })
  | none => (p.slots.length, { slots := p.slots ++ [some node], count := p.count + 1 })

/-- `PagingObjectPool::Release` at the map level: destroy the slot and
decrement the count; releasing a free slot fails and changes nothing. -/
def Pool.Release (p : Pool) (id : Nat) : Pool :=
  match p.get id with
  | some _ => { slots := p.slots.set id none, count := p.count - 1 }
  | none => p

/-- Write the `bucket` field of the node `id` points to. -/
def Pool.setBucket (p : Pool) (id b : Nat) : Pool :=
  match p.slots.getD id none with
  | some n => { p with slots := p.slots.set id (some { n with bucket := b }) }
  | none => p

/-- `KeyValuePair::ForceChangeKey` on the node `id` points to. -/
def Pool.setKey (p : Pool) (id k : Nat) : Pool :=
  match p.slots.getD id none with
  | some n => { p with slots := p.slots.set id (some { n with key := k }) }
  | none => p

/-- `InnerMap::GetIndex`: `hash & (uint64(numBuckets) - 1)`, truncated to
`uint32`.  For `numBuckets = 0` the unsigned subtraction wraps to the
all-ones mask, exactly as in the source. -/
def GetIndex (numBuckets hash : Nat) : Nat :=
  (hash &&& ((numBuckets + (2 ^ 64 - 1)) % 2 ^ 64)) % 2 ^ 32

/-- `HashMap::GetInnerMapIndex`: `hash & c_innerMapIndexMask`. -/
def GetInnerMapIndex (numInnerMaps hash : Nat) : Nat :=
  hash &&& (numInnerMaps - 1)

/-- The node-walk comparison `KeyComparator::Compare(current->key, searchKey)
== 0`: the node `id` points to holds the key `key`. -/
def keyMatches (p : Pool) (key id : Nat) : Bool :=
  match p.get id with
  | some n => n.key == key
  | none => false

/-- `Bucket::Find_Lockless` by key: first node in the intrusive list whose
key compares equal. -/
def bucketFind (p : Pool) (l : List Nat) (key : Nat) : Option Nat :=
  l.find? (fun id => keyMatches p key id)

/-- `Bucket::Erase_Lockless` by key: unlink and return the first node whose
key compares equal. -/
def bucketErase (p : Pool) (key : Nat) : List Nat → Option Nat × List Nat
  | [] => (none, [])
  | id :: rest =>
    if keyMatches p key id then
      (some id, rest)
    else
      let r := bucketErase p key rest
      (r.1, id :: r.2)

/-- A shard (`HashMap::InnerMap`): bucket array, live count, fill capacity.
`numBuckets` is the length of `buckets`. -/
structure InnerMap where
  buckets : List (List Nat)
  count : Nat
  fillCapacity : Nat
  deriving DecidableEq, Repr

/-- A fresh shard (`InnerMap` constructor: null bucket array, zero counts). -/
def InnerMap.empty : InnerMap :=
  { buckets := [], count := 0, fillCapacity := 0 }

/-- One step of `InnerMap::Resize`'s rehash loop: stamp the node's new
bucket index (recomputed from the stored key's hash) and splice it onto
the head of its new bucket. -/
def relinkStep (hFn : Nat → Nat) (newNumBuckets : Nat)
    (st : Pool × List (List Nat)) (id : Nat) : Pool × List (List Nat) :=
  match st.1.get id with
  | some node =>
    let newBucketIndex := GetIndex newNumBuckets (hFn node.key)
    (st.1.setBucket id newBucketIndex,
     st.2.set newBucketIndex (id :: st.2.getD newBucketIndex []))
  | none => st

/-- `InnerMap::Resize` (hash_map.h lines 200-242): allocate a fresh bucket
array of `newNumBuckets` empty buckets, walk every old bucket in order
and relink each node into the bucket recomputed from `Hash64(key)` under
the new size, then set `fillCapacity = (numBuckets * 7) / 8` (a `uint32`
product). -/
def InnerMap.Resize (hFn : Nat → Nat) (pool : Pool) (m : InnerMap)
    (newNumBuckets : Nat) : Pool × InnerMap :=
  let r := (m.buckets.flatten).foldl (relinkStep hFn newNumBuckets)
      (pool, List.replicate newNumBuckets [])
  (r.1, { buckets := r.2, count := m.count,
          fillCapacity := (newNumBuckets * 7 % 2 ^ 32) / 8 })

/-- `InnerMap::Insert_Lockless` (hash_map.h lines 244-273): pre-increment
`count`; resize to `GetNextPowerOfTwo(count * 2)` when `count` exceeds
the fill capacity; if the target bucket already holds the key return
null (`count` stays incremented — the source has no rollback on this
path); otherwise reserve a node from the pool, stamp its bucket and
splice it onto the bucket head.  (`Bucket::Insert_Lockless` on a non-null
node always succeeds, so the rollback branch of the source is dead.) -/
def InnerMap.Insert_Lockless (hFn : Nat → Nat) (pool : Pool) (m : InnerMap)
    (hash key value : Nat) : Option Nat × Pool × InnerMap :=
  let count := m.count + 1
  let s1 :=
    if count > m.fillCapacity then
      InnerMap.Resize hFn pool { m with count := count }
        (GetNextPowerOfTwo (count * 2 % 2 ^ 32))
    else (pool, { m with count := count })
  let pool1 := s1.1
  let m1 := s1.2
  let bucket := GetIndex m1.buckets.length hash
  if (bucketFind pool1 (m1.buckets.getD bucket []) key).isSome then
    (none, pool1, m1)
  else
    let r := pool1.Reserve key value
    let pool2 := r.2.setBucket r.1 bucket
    (some r.1, pool2,
     { m1 with buckets := m1.buckets.set bucket (r.1 :: m1.buckets.getD bucket []) })

/-- `InnerMap::Find_Lockless`. -/
def InnerMap.Find_Lockless (pool : Pool) (m : InnerMap) (hash key : Nat) : Option Nat :=
  bucketFind pool (m.buckets.getD (GetIndex m.buckets.length hash) []) key

/-- `InnerMap::Remove_Lockless` by key (hash_map.h lines 312-329): erase
from the bucket named by the hash; release the node to the pool unless
its bucket field is `REASSIGNING`; decrement `count`. -/
def InnerMap.Remove_Lockless (pool : Pool) (m : InnerMap) (hash key : Nat) :
    Bool × Pool × InnerMap :=
  let bucket := GetIndex m.buckets.length hash
  let r := bucketErase pool key (m.buckets.getD bucket [])
  match r.1 with
  | some id =>
    let pool' :=
      match pool.get id with
      | some n => if n.bucket ≠ c_reassigningBucket then pool.Release id else pool
      | none => pool
    (true, pool', { m with buckets := m.buckets.set bucket r.2, count := m.count - 1 })
  | none => (false, pool, m)

/-- `InnerMap::Remove_Lockless<KeyValuePair>` (hash_map.h lines 338-358):
erase by node pointer; the bucket is read from the node's own `bucket`
field and nothing happens unless it is below `numBuckets`. -/
def InnerMap.Remove_Lockless_KVP (pool : Pool) (m : InnerMap) (ptr : Nat) :
    Bool × Pool × InnerMap :=
  match pool.get ptr with
  | none => (false, pool, m)
  | some node =>
    let bucket := node.bucket
    if bucket < m.buckets.length then
      let r := bucketErase pool node.key (m.buckets.getD bucket [])
      match r.1 with
      | some rid =>
        let pool' :=
          match pool.get rid with
          | some rn => if rn.bucket ≠ c_reassigningBucket then pool.Release rid else pool
          | none => pool
        (true, pool', { m with buckets := m.buckets.set bucket r.2, count := m.count - 1 })
      | none => (false, pool, m)
    else (false, pool, m)

/-- `InnerMap::ReKey_Concurrent(hash, newHash, value, newKey)` (hash_map.h
lines 403-448), sequentially: the CAS on the node's bucket field succeeds
at once when `bucket < numBuckets` (otherwise the do-while spins forever:
`none`).  Same bucket: rewrite the key in place.  Different buckets:
erase the first node with the old key from the old bucket and, when one
was found, rewrite the key, restamp the bucket and head-insert the node
into the new bucket; when none was found the node is left marked
`REASSIGNING`. -/
def InnerMap.ReKey_Concurrent (pool : Pool) (m : InnerMap)
    (newHash ptr newKey : Nat) : Option (Bool × Pool × InnerMap) :=
  match pool.get ptr with
  | none => none
  | some node =>
    let newBucket := GetIndex m.buckets.length newHash
    let oldBucket := node.bucket
    if oldBucket < m.buckets.length then
      let pool1 := pool.setBucket ptr c_reassigningBucket
      if oldBucket ≠ newBucket then
        let r := bucketErase pool1 node.key (m.buckets.getD oldBucket [])
        match r.1 with
        | some _ =>
          let pool2 := (pool1.setKey ptr newKey).setBucket ptr newBucket
          let bs1 := m.buckets.set oldBucket r.2
          some (true, pool2,
                { m with buckets := bs1.set newBucket (ptr :: bs1.getD newBucket []) })
        | none =>
          some (false, pool1, { m with buckets := m.buckets.set oldBucket r.2 })
      else
        some (true, (pool1.setKey ptr newKey).setBucket ptr newBucket, m)
    else none

/-- The top-level map: shared pool, `NumInnerMaps_T` shards, `totalCount`. -/
structure HashMap where
  sharedPool : Pool
  innerMaps : List InnerMap
  totalCount : Nat
  deriving DecidableEq, Repr

/-- A fresh `HashMap` with `numInnerMaps` shards sharing one pool. -/
def HashMap.emptyMap (numInnerMaps : Nat) : HashMap :=
  { sharedPool := { slots := [], count := 0 },
    innerMaps := List.replicate numInnerMaps InnerMap.empty,
    totalCount := 0 }

/-- `HashMap::Insert_Concurrent` (equals `Insert_Lockless` under the shard
write lock): hash, route to a shard, delegate, and bump `totalCount` when
a pair was added.  Returns the added node pointer. -/
def HashMap.Insert_Concurrent (numInnerMaps : Nat) (hFn : Nat → Nat)
    (hm : HashMap) (key value : Nat) : Option Nat × HashMap :=
  let hash := hFn key
  let mapIndex := GetInnerMapIndex numInnerMaps hash
  let m := hm.innerMaps.getD mapIndex InnerMap.empty
  let r := InnerMap.Insert_Lockless hFn hm.sharedPool m hash key value
  (r.1, { sharedPool := r.2.1,
          innerMaps := hm.innerMaps.set mapIndex r.2.2,
          totalCount := if r.1.isSome then hm.totalCount + 1 else hm.totalCount })

/-- `HashMap::insert` (the `std::map`-like wrapper): true iff a new entry
was created. -/
def HashMap.insert (numInnerMaps : Nat) (hFn : Nat → Nat) (hm : HashMap)
    (key value : Nat) : Bool × HashMap :=
  let r := hm.Insert_Concurrent numInnerMaps hFn key value
  (r.1.isSome, r.2)

/-- `HashMap::Find_Concurrent`: route by hash and search the one bucket. -/
def HashMap.Find_Concurrent (numInnerMaps : Nat) (hFn : Nat → Nat)
    (hm : HashMap) (key : Nat) : Option Nat :=
  let hash := hFn key
  InnerMap.Find_Lockless hm.sharedPool
    (hm.innerMaps.getD (GetInnerMapIndex numInnerMaps hash) InnerMap.empty) hash key

/-- `HashMap::find`: the value bound to `key`, if present. -/
def HashMap.findValue (numInnerMaps : Nat) (hFn : Nat → Nat)
    (hm : HashMap) (key : Nat) : Option Nat :=
  (hm.Find_Concurrent numInnerMaps hFn key).bind fun id =>
    (hm.sharedPool.get id).map Node.value

/-- `HashMap::Remove_Concurrent` by key, with the `totalCount` decrement of
the wrapper. -/
def HashMap.Remove_Concurrent (numInnerMaps : Nat) (hFn : Nat → Nat)
    (hm : HashMap) (key : Nat) : Bool × HashMap :=
  let hash := hFn key
  let mapIndex := GetInnerMapIndex numInnerMaps hash
  let m := hm.innerMaps.getD mapIndex InnerMap.empty
  let r := InnerMap.Remove_Lockless hm.sharedPool m hash key
  (r.1, { sharedPool := r.2.1,
          innerMaps := hm.innerMaps.set mapIndex r.2.2,
          totalCount := if r.1 then hm.totalCount - 1 else hm.totalCount })

/-- `HashMap::ReKey_Concurrent(value, newKey)` (hash_map.h lines 710-742):
compute both routings from the node's current key and the new key.  Same
shard: delegate to `InnerMap::ReKey_Concurrent`.  Different shards: mark
the node `REASSIGNING`, remove it from the old shard by pointer
(`Remove_Concurrent` on the `KeyValuePair` overload — which consults the
node's bucket field), and only if that removal succeeded rewrite the key,
reset the bucket to `INVALID` and insert the moved value into the new
shard (reserving a fresh node there); on a failed re-insert the assert
fires and `totalCount` is decremented. -/
def HashMap.ReKey_Concurrent_Value (numInnerMaps : Nat) (hFn : Nat → Nat)
    (hm : HashMap) (ptr newKey : Nat) : Option (Bool × HashMap) :=
  match hm.sharedPool.get ptr with
  | none => none
  | some node =>
    let oldHash := hFn node.key
    let oldMapIndex := GetInnerMapIndex numInnerMaps oldHash
    let newHash := hFn newKey
    let newMapIndex := GetInnerMapIndex numInnerMaps newHash
    if oldMapIndex == newMapIndex then
      match InnerMap.ReKey_Concurrent hm.sharedPool
          (hm.innerMaps.getD oldMapIndex InnerMap.empty) newHash ptr newKey with
      | some r =>
        some (r.1, { hm with sharedPool := r.2.1,
                             innerMaps := hm.innerMaps.set oldMapIndex r.2.2 })
      | none => none
    else
      let pool1 := hm.sharedPool.setBucket ptr c_reassigningBucket
      let mOld := hm.innerMaps.getD oldMapIndex InnerMap.empty
      let rRem := InnerMap.Remove_Lockless_KVP pool1 mOld ptr
      let hm1 : HashMap := { hm with sharedPool := rRem.2.1,
                                     innerMaps := hm.innerMaps.set oldMapIndex rRem.2.2 }
      if rRem.1 then
        match hm1.sharedPool.get ptr with
        | none => none
        | some node2 =>
          let pool3 := (hm1.sharedPool.setKey ptr newKey).setBucket ptr c_invalidBucket
          let mNew := hm1.innerMaps.getD newMapIndex InnerMap.empty
          let rIns := InnerMap.Insert_Lockless hFn pool3 mNew newHash newKey node2.value
          let bRekeyed := rIns.1.isSome
          some (bRekeyed,
                { sharedPool := rIns.2.1,
                  innerMaps := hm1.innerMaps.set newMapIndex rIns.2.2,
                  totalCount := if bRekeyed then hm1.totalCount else hm1.totalCount - 1 })
      else
        some (false, hm1)

/-- `HashMap::ReKey_Concurrent(key, newKey)` / the `rekey` wrapper:
find the pair for `key`, then rekey it by pointer. -/
def HashMap.rekey (numInnerMaps : Nat) (hFn : Nat → Nat) (hm : HashMap)
    (key newKey : Nat) : Option (Bool × HashMap) :=
  match hm.Find_Concurrent numInnerMaps hFn key with
  | some ptr => hm.ReKey_Concurrent_Value numInnerMaps hFn ptr newKey
  | none => some (false, hm)

/-- `HashMap::erase`. -/
def HashMap.erase (numInnerMaps : Nat) (hFn : Nat → Nat) (hm : HashMap)
    (key : Nat) : Bool × HashMap :=
  hm.Remove_Concurrent numInnerMaps hFn key

/-- `HashMap::Size` / `size()`. -/
def HashMap.size (hm : HashMap) : Nat := hm.totalCount

/-- The nodes reachable from a shard's bucket array (concatenation of its
intrusive bucket lists). -/
def InnerMap.reachable (m : InnerMap) : List Nat := m.buckets.flatten

/-- Every node id reachable from some shard of the map. -/
def HashMap.allIds (hm : HashMap) : List Nat :=
  (hm.innerMaps.map InnerMap.reachable).flatten

/-- Well-formedness of one shard `si`: every node in bucket `bi` is live,
carries `bucket = bi`, hashes into bucket `bi` under the shard's current
bucket count, and routes to shard `si`. -/
abbrev ShardWf (numInnerMaps : Nat) (hFn : Nat → Nat) (pool : Pool) (si : Nat)
    (m : InnerMap) : Prop :=
  ∀ bi, bi < m.buckets.length → ∀ id ∈ m.buckets.getD bi [],
    (pool.get id).map Node.bucket = some bi ∧
    (pool.get id).map (fun n => GetIndex m.buckets.length (hFn n.key)) = some bi ∧
    (pool.get id).map (fun n => GetInnerMapIndex numInnerMaps (hFn n.key)) = some si

/-- Well-formedness of the whole map at quiescence: shard array of the
right length, every shard well-formed, no node linked twice, and no key
stored in two nodes. -/
abbrev Wf (numInnerMaps : Nat) (hFn : Nat → Nat) (hm : HashMap) : Prop :=
  hm.innerMaps.length = numInnerMaps ∧ 0 < numInnerMaps ∧
  (∀ si, si < numInnerMaps →
    ShardWf numInnerMaps hFn hm.sharedPool si (hm.innerMaps.getD si InnerMap.empty)) ∧
  hm.allIds.Nodup ∧
  hm.allIds.Pairwise (fun a b =>
    (hm.sharedPool.get a).map Node.key ≠ (hm.sharedPool.get b).map Node.key)

/-- The identity hash, a concrete instance of the pluggable `hash_fn`
used by the closed evaluations below. -/
def idHash : Nat → Nat := fun k => k

/-! ### Concrete execution traces used by the closed evaluations -/

/-- A fresh map with the reference shard count `NumInnerMaps_T = 4`. -/
def exMap0 : HashMap := HashMap.emptyMap 4

/-- The map after `insert(0, 1)` (key `0` routes to shard `0`). -/
def exMap1 : HashMap := (HashMap.insert 4 idHash exMap0 0 1).2

/-- A second `insert(0, 2)` of the already-present key `0`. -/
def exIns2 : Bool × HashMap := HashMap.insert 4 idHash exMap1 0 2

/-- `rekey(0, 1)` on `exMap1`: key `0` lives in shard `0`, key `1` routes
to shard `1`, so this exercises the cross-shard path. -/
def exRekey : Option (Bool × HashMap) := HashMap.rekey 4 idHash exMap1 0 1

/-- The map state the cross-shard rekey left behind. -/
def exMap2 : HashMap := (exRekey.getD (false, exMap1)).2

/-- `erase(0)` after the failed cross-shard rekey. -/
def exErase : Bool × HashMap := HashMap.erase 4 idHash exMap2 0

/-- Witness state for the free-page-list claims: two pages, page `0`
enqueued (its link is `TAIL`), page `1` off the list (`INVALID`). -/
def exPool : PagingObjectPool :=
  { pageList := [{ data := FixedSizeObjectPool.empty 8, pageIndex := 0,
                   nextFreeIndex := c_TailPageIndex },
                 { data := FixedSizeObjectPool.empty 8, pageIndex := 1,
                   nextFreeIndex := c_InvalidPageIndex }],
    numPages := 2,
    freeListHeadIndex := packHeadWord 0 c_TailPageIndex 0,
    count := 0 }

/-- The abstract free stack matching `exPool`. -/
def exFreeStack : List Nat := [0]

/-! ## Theorems -/

/-- C10: `SimpleLinkedList::Insert` and `Insert_Unsafe` return false and
leave the list unchanged when called with a null node pointer, and for
every non-null node they return true after linking the node at the head
of the list. -/
theorem c10_list_insert_null_and_head :
    (∀ l : List Nat,
        SimpleLinkedList.Insert none l = (false, l) ∧
        SimpleLinkedList.InsertNoLock none l = (false, l)) ∧
    (∀ (n : Nat) (l : List Nat),
        SimpleLinkedList.Insert (some n) l = (true, n :: l) ∧
        SimpleLinkedList.InsertNoLock (some n) l = (true, n :: l)) :=
  ⟨fun _ => ⟨rfl, rfl⟩, fun _ _ => ⟨rfl, rfl⟩⟩

/-- C9: `FixedSizeObjectPool::Release` called with a pointer that is not a
valid slot boundary inside the array (`GetIndex` yields the invalid
index), or whose slot bit is already clear, returns false and leaves the
pool — bitmap, allocated count and destroyed-object count — unchanged. -/
theorem c9_release_invalid_rejected (szNode N : Nat) (p : FixedSizeObjectPool)
    (ptrDiff : Int)
    (h : FixedSizeObjectPool.GetIndex szNode N ptrDiff = N ∨
        p.IsAllocated N (FixedSizeObjectPool.GetIndex szNode N ptrDiff) = false) :
    (FixedSizeObjectPool.Release szNode N p ptrDiff).released = false ∧
    (FixedSizeObjectPool.Release szNode N p ptrDiff).pool = p := by
  unfold FixedSizeObjectPool.Release
  rcases h with h | h
  · rw [h]
    simp
  · by_cases hlt : FixedSizeObjectPool.GetIndex szNode N ptrDiff < N
    · simp [hlt, h]
    · simp [hlt]

/-- C9 witness: releasing a misaligned pointer (byte offset 8 into a pool
whose slots are 16 bytes) is rejected and changes nothing. -/
theorem c9_release_invalid_rejected_witness :
    (FixedSizeObjectPool.Release 16 8 (FixedSizeObjectPool.empty 8) 8).released = false ∧
    (FixedSizeObjectPool.Release 16 8 (FixedSizeObjectPool.empty 8) 8).pool =
      FixedSizeObjectPool.empty 8 :=
  c9_release_invalid_rejected 16 8 (FixedSizeObjectPool.empty 8) 8 (by decide)

/-- C6 counterexample: with the lock word holding exactly one writer and no
readers (`0x10000`), one iteration of
`AcquireMultiReaderWriterWriteAccess` acquires the lock immediately (the
code only checks the reader field), with resulting word `0x20000 ≠
0x10000` — the claim that acquisition succeeds only when the result
equals exactly `0x10000`, and that a second writer waits for the first,
is false. -/
theorem c6_writer_overlap_counterexample :
    (AcquireMultiReaderWriterWriteAccess_attempt 0x10000).acquired = true ∧
    (AcquireMultiReaderWriterWriteAccess_attempt 0x10000).word = 0x20000 ∧
    (0x20000 : Nat) ≠ 0x10000 := by decide

/-- C6 (amended): one iteration of `AcquireMultiReaderWriterWriteAccess`
fetch-adds `0x10000` and succeeds iff the reader field (low 16 bits) of
the resulting word is zero, regardless of other writers; on failure the
fetch-add is undone, restoring the word, and the subsequent spin waits
only until the reader field is zero. -/
theorem c6_acquire_write_reader_field (w : Nat) (hw : w < 2 ^ 32) :
    ((AcquireMultiReaderWriterWriteAccess_attempt w).acquired =
      ((((w + c_multiReaderWriter_WriteIncrement) % 2 ^ 32) &&&
          c_multiReaderWriter_ReadMask) == 0)) ∧
    ((AcquireMultiReaderWriterWriteAccess_attempt w).acquired = false →
      (AcquireMultiReaderWriterWriteAccess_attempt w).word = w) ∧
    (AcquireMultiReaderWriterWriteAccess_waitCond w =
      ((w &&& c_multiReaderWriter_ReadMask) != 0)) := by
  have h32 : (2 : Nat) ^ 32 = 4294967296 := by norm_num
  rw [h32] at hw
  refine ⟨?_, ?_, rfl⟩
  · rw [h32]
    unfold AcquireMultiReaderWriterWriteAccess_attempt AtomicAddU32
    by_cases hc : (((w + c_multiReaderWriter_WriteIncrement) % 4294967296) &&&
        c_multiReaderWriter_ReadMask) = 0
    · simp [hc, h32]
    · simp [hc, h32]
  · intro hfail
    unfold AcquireMultiReaderWriterWriteAccess_attempt AtomicAddU32 at hfail ⊢
    by_cases hc : (((w + c_multiReaderWriter_WriteIncrement) % 4294967296) &&&
        c_multiReaderWriter_ReadMask) = 0
    · rw [h32] at hfail
      simp [hc] at hfail
    · rw [h32] at hfail ⊢
      simp only [if_neg hc] at hfail ⊢
      unfold AtomicSubtractU32 c_multiReaderWriter_WriteIncrement
      rw [h32]
      omega

/-- C6 witness: a word holding five readers fails the attempt and is
restored unchanged. -/
theorem c6_acquire_write_reader_field_witness :
    ((AcquireMultiReaderWriterWriteAccess_attempt 5).acquired =
      ((((5 + c_multiReaderWriter_WriteIncrement) % 2 ^ 32) &&&
          c_multiReaderWriter_ReadMask) == 0)) ∧
    ((AcquireMultiReaderWriterWriteAccess_attempt 5).acquired = false →
      (AcquireMultiReaderWriterWriteAccess_attempt 5).word = 5) ∧
    (AcquireMultiReaderWriterWriteAccess_waitCond 5 =
      ((5 &&& c_multiReaderWriter_ReadMask) != 0)) :=
  c6_acquire_write_reader_field 5 (by decide)

/-- C2: evaluation of the failing input.  Starting from the empty map,
`insert(0, 1)` then `insert(0, 2)`: the second insert returns false (key
already present), yet shard 0's `count` field is 2 while only one node is
reachable from its bucket array — `Insert_Lockless` pre-increments
`count` and never rolls it back on the duplicate path, so the claimed
invariant `count = reachable nodes` fails and a duplicate insert does
not leave the count unchanged. -/
theorem c2_duplicate_insert_eval :
    exIns2.1 = false ∧
    (exIns2.2.innerMaps.getD 0 InnerMap.empty).count = 2 ∧
    ((exIns2.2.innerMaps.getD 0 InnerMap.empty).reachable).length = 1 ∧
    (exIns2.2.innerMaps.getD 0 InnerMap.empty).count ≠
      ((exIns2.2.innerMaps.getD 0 InnerMap.empty).reachable).length := by decide

/-- C1: evaluation of the failing input.  In `exMap1` the key 0 is present
and the key 1 is absent, and they route to different shards; the claim
then demands `rekey(0, 1) = true`.  The code returns false: the
cross-shard path stamps the node's bucket field `REASSIGNING` before
calling the remove-by-pointer overload, whose `bucket < numBuckets` guard
therefore always fails.  The node is left behind with its bucket field
still `REASSIGNING`. -/
theorem c1_rekey_cross_shard_eval :
    (HashMap.Find_Concurrent 4 idHash exMap1 0).isSome = true ∧
    HashMap.Find_Concurrent 4 idHash exMap1 1 = none ∧
    GetInnerMapIndex 4 (idHash 0) ≠ GetInnerMapIndex 4 (idHash 1) ∧
    exRekey = some (false, exMap2) ∧
    (exMap2.sharedPool.get 0).map Node.bucket = some c_reassigningBucket := by decide

/-- C4: evaluation of the failing input.  `insert(0, 1)`, then the failed
cross-shard `rekey(0, 1)`, then `erase(0)`: the erase succeeds, but the
node's bucket field still reads `REASSIGNING`, so `Remove_Lockless` skips
`pool.Release` — afterwards the pool's live-object count is 1 while
`size()` is 0, violating `Pool.count = size()`. -/
theorem c4_pool_leak_eval :
    exErase.1 = true ∧
    exErase.2.sharedPool.count = 1 ∧
    HashMap.size exErase.2 = 0 ∧
    exErase.2.sharedPool.count ≠ HashMap.size exErase.2 := by decide

/-- C3 counterexample: when the memory allocator cannot provide a page
(budget 0) and the free list is empty, `PagingObjectPool::Reserve` does
not return null — `AllocateNewPage` writes `pNewPage->pageIndex` through
the null result of `Util::NewAligned`, a crash, and the reserve loop has
no null-returning exit at all. -/
theorem c3_reserve_oom_counterexample :
    (PagingObjectPool.Reserve 8 0 2 PagingObjectPool.empty).1 = PReserveOutcome.crash ∧
    (PagingObjectPool.Reserve 8 0 2 PagingObjectPool.empty).1 ≠
      PReserveOutcome.nullReturn := by decide

/-! ### Helper lemmas: lists, table scan, bucket index -/

theorem getD_set_eq_ite {α : Type} (l : List α) (i j : Nat) (a d : α) :
    (l.set i a).getD j d = if i = j ∧ i < l.length then a else l.getD j d := by
  rw [List.getD_eq_getElem?_getD, List.getD_eq_getElem?_getD, List.getElem?_set]
  by_cases h1 : i = j
  · subst h1
    by_cases h2 : i < l.length
    · simp [h2]
    · simp only [h2, if_false, if_true, and_false, if_neg]
      have : l[i]? = none := List.getElem?_eq_none (by omega)
      simp [h2, this]
  · simp [h1]

theorem getD_replicate_nil (n bi : Nat) :
    (List.replicate n ([] : List Nat)).getD bi [] = [] := by
  rw [List.getD_eq_getElem?_getD, List.getElem?_replicate]
  split <;> rfl

theorem getD_of_getD_eq_some {α : Type} (l : List (Option α)) (i : Nat) (a : α)
    (h : l.getD i none = some a) : i < l.length := by
  by_cases hi : i < l.length
  · exact hi
  · rw [List.getD_eq_getElem?_getD, List.getElem?_eq_none (by omega)] at h
    simp at h

theorem c_powerOfTwoTable_sorted : c_powerOfTwoTable.Sorted (· ≤ ·) := by
  unfold c_powerOfTwoTable
  decide

theorem c_powerOfTwoTable_pows :
    ∀ x ∈ c_powerOfTwoTable, ∃ i, i ≤ 31 ∧ x = 2 ^ i := by
  decide

theorem c_powerOfTwoTable_le : ∀ x ∈ c_powerOfTwoTable, x ≤ 2 ^ 31 := by
  decide

theorem find?_le_of_sorted {l : List Nat} (hs : l.Sorted (· ≤ ·)) (v p : Nat)
    (hf : l.find? (fun x => v ≤ x) = some p) : ∀ j ∈ l, v ≤ j → p ≤ j := by
  induction l with
  | nil => simp at hf
  | cons a t ih =>
    rcases List.sorted_cons.mp hs with ⟨ha, ht⟩
    by_cases hva : v ≤ a
    · rw [List.find?_cons_of_pos _ (by simpa using hva)] at hf
      cases hf
      intro j hj _
      rcases List.mem_cons.mp hj with rfl | hj
      · exact Nat.le_refl _
      · exact ha j hj
    · rw [List.find?_cons_of_neg _ (by simpa using hva)] at hf
      intro j hj hvj
      rcases List.mem_cons.mp hj with rfl | hj
      · exact absurd hvj hva
      · exact ih ht hf j hj hvj

theorem GetNextPowerOfTwo_mem (v : Nat) : GetNextPowerOfTwo v ∈ c_powerOfTwoTable := by
  unfold GetNextPowerOfTwo
  cases hf : c_powerOfTwoTable.find? (fun p => v ≤ p) with
  | none => simp [c_powerOfTwoTable]
  | some p => exact List.mem_of_find?_eq_some hf

theorem GetNextPowerOfTwo_pow (v : Nat) :
    ∃ i, i ≤ 31 ∧ GetNextPowerOfTwo v = 2 ^ i :=
  c_powerOfTwoTable_pows _ (GetNextPowerOfTwo_mem v)

theorem GetNextPowerOfTwo_pos (v : Nat) : 1 ≤ GetNextPowerOfTwo v := by
  have hall : ∀ x ∈ c_powerOfTwoTable, 1 ≤ x := by decide
  exact hall _ (GetNextPowerOfTwo_mem v)

theorem GetNextPowerOfTwo_ge (v : Nat) (hv : v ≤ 2 ^ 31) :
    v ≤ GetNextPowerOfTwo v := by
  unfold GetNextPowerOfTwo
  cases hf : c_powerOfTwoTable.find? (fun p => v ≤ p) with
  | none =>
    rw [List.find?_eq_none] at hf
    have h31 : (2147483648 : Nat) ∈ c_powerOfTwoTable := by decide
    have := hf _ h31
    simp at this
    omega
  | some p =>
    have := List.find?_some hf
    simpa using this

theorem GetNextPowerOfTwo_least (v j i : Nat) (hj : j = 2 ^ i) (hvj : v ≤ j) :
    GetNextPowerOfTwo v ≤ j := by
  by_cases hi : i ≤ 31
  · have hjmem : j ∈ c_powerOfTwoTable := by
      subst hj
      interval_cases i <;> simp [c_powerOfTwoTable]
    unfold GetNextPowerOfTwo
    cases hf : c_powerOfTwoTable.find? (fun p => v ≤ p) with
    | none =>
      rw [List.find?_eq_none] at hf
      have := hf _ hjmem
      simp at this
      omega
    | some p =>
      exact find?_le_of_sorted c_powerOfTwoTable_sorted v p hf j hjmem hvj
  · have h1 : GetNextPowerOfTwo v ≤ 2 ^ 31 :=
      c_powerOfTwoTable_le _ (GetNextPowerOfTwo_mem v)
    have h2 : (2 : Nat) ^ 31 ≤ 2 ^ i := Nat.pow_le_pow_right (by omega) (by omega)
    omega

theorem GetIndex_lt (n hash : Nat) (h1 : 1 ≤ n) (h2 : n ≤ 2 ^ 32) :
    GetIndex n hash < n := by
  unfold GetIndex
  have hm : (n + (2 ^ 64 - 1)) % 2 ^ 64 = n - 1 := by omega
  rw [hm]
  have := Nat.and_le_right (n := hash) (m := n - 1)
  have := Nat.mod_le (hash &&& (n - 1)) (2 ^ 32)
  omega

/-! ### Helper lemmas: the pool under `setBucket` and the rehash fold -/

theorem Pool.get_setBucket (p : Pool) (i b j : Nat) :
    (p.setBucket i b).get j =
      if j = i then (p.get i).map (fun n => { n with bucket := b }) else p.get j := by
  by_cases hji : j = i
  · rw [hji, if_pos rfl]
    cases h : p.slots.getD i none with
    | none =>
      unfold Pool.setBucket
      rw [h]
      unfold Pool.get
      rw [h]
      rfl
    | some n =>
      have hi : i < p.slots.length := getD_of_getD_eq_some _ _ _ h
      unfold Pool.setBucket
      rw [h]
      simp only [Pool.get]
      rw [getD_set_eq_ite, h]
      simp [hi]
  · rw [if_neg hji]
    cases h : p.slots.getD i none with
    | none =>
      unfold Pool.setBucket
      rw [h]
    | some n =>
      unfold Pool.setBucket
      rw [h]
      simp only [Pool.get]
      rw [getD_set_eq_ite]
      have hc : ¬(i = j ∧ i < p.slots.length) := fun hc => hji hc.1.symm
      rw [if_neg hc]

theorem Pool.get_setBucket_key (p : Pool) (i b j : Nat) :
    ((p.setBucket i b).get j).map Node.key = (p.get j).map Node.key := by
  rw [Pool.get_setBucket]
  split
  · next hji => subst hji; cases p.get j <;> rfl
  · rfl

theorem Pool.get_setBucket_value (p : Pool) (i b j : Nat) :
    ((p.setBucket i b).get j).map Node.value = (p.get j).map Node.value := by
  rw [Pool.get_setBucket]
  split
  · next hji => subst hji; cases p.get j <;> rfl
  · rfl

theorem relinkFold_key (hFn : Nat → Nat) (n : Nat) :
    ∀ (ids : List Nat) (st : Pool × List (List Nat)) (j : Nat),
      (((ids.foldl (relinkStep hFn n) st).1).get j).map Node.key =
        (st.1.get j).map Node.key := by
  intro ids
  induction ids with
  | nil => intro st j; rfl
  | cons id0 rest ih =>
    intro st j
    rw [List.foldl_cons, ih]
    unfold relinkStep
    cases h : st.1.get id0 with
    | none => rfl
    | some node => simp only [h]; rw [Pool.get_setBucket_key]

theorem relinkFold_value (hFn : Nat → Nat) (n : Nat) :
    ∀ (ids : List Nat) (st : Pool × List (List Nat)) (j : Nat),
      (((ids.foldl (relinkStep hFn n) st).1).get j).map Node.value =
        (st.1.get j).map Node.value := by
  intro ids
  induction ids with
  | nil => intro st j; rfl
  | cons id0 rest ih =>
    intro st j
    rw [List.foldl_cons, ih]
    unfold relinkStep
    cases h : st.1.get id0 with
    | none => rfl
    | some node => simp only [h]; rw [Pool.get_setBucket_value]

theorem relinkFold_len (hFn : Nat → Nat) (n : Nat) :
    ∀ (ids : List Nat) (st : Pool × List (List Nat)),
      ((ids.foldl (relinkStep hFn n) st).2).length = st.2.length := by
  intro ids
  induction ids with
  | nil => intro st; rfl
  | cons id0 rest ih =>
    intro st
    rw [List.foldl_cons, ih]
    unfold relinkStep
    cases h : st.1.get id0 with
    | none => rfl
    | some node => simp [List.length_set]

theorem relinkFold_mono (hFn : Nat → Nat) (n : Nat) :
    ∀ (ids : List Nat) (st : Pool × List (List Nat)) (bi id : Nat),
      id ∈ st.2.getD bi [] →
      id ∈ ((ids.foldl (relinkStep hFn n) st).2).getD bi [] := by
  intro ids
  induction ids with
  | nil => intro st bi id h; exact h
  | cons id0 rest ih =>
    intro st bi id h
    rw [List.foldl_cons]
    apply ih
    unfold relinkStep
    cases hg : st.1.get id0 with
    | none => exact h
    | some node =>
      simp only [hg]
      rw [getD_set_eq_ite]
      split
      · next hc =>
        rcases hc with ⟨hbi, _⟩
        subst hbi
        exact List.mem_cons_of_mem _ h
      · exact h

theorem relinkFold_fwd (hFn : Nat → Nat) (n : Nat) (hn1 : 1 ≤ n) (hn2 : n ≤ 2 ^ 32) :
    ∀ (ids : List Nat) (st : Pool × List (List Nat)) (id k : Nat),
      st.2.length = n →
      id ∈ ids →
      (st.1.get id).map Node.key = some k →
      id ∈ ((ids.foldl (relinkStep hFn n) st).2).getD (GetIndex n (hFn k)) [] := by
  intro ids
  induction ids with
  | nil => intro st id k _ h; simp at h
  | cons id0 rest ih =>
    intro st id k hlen hmem hkey
    rw [List.foldl_cons]
    rcases List.mem_cons.mp hmem with rfl | hmem
    · cases hg : st.1.get id with
      | none => rw [hg] at hkey; simp at hkey
      | some node =>
        rw [hg] at hkey
        have hkeq : node.key = k := by simpa using hkey
        apply relinkFold_mono
        unfold relinkStep
        simp only [hg, hkeq]
        rw [getD_set_eq_ite]
        have : GetIndex n (hFn k) < st.2.length := by
          rw [hlen]; exact GetIndex_lt n (hFn k) hn1 hn2
        simp only [this, and_true, if_pos rfl]
        exact List.mem_cons_self _ _
    · apply ih
      · unfold relinkStep
        cases hg : st.1.get id0 with
        | none => exact hlen
        | some node => simp [List.length_set, hlen]
      · exact hmem
      · unfold relinkStep
        cases hg : st.1.get id0 with
        | none => exact hkey
        | some node => simp only [hg]; rw [Pool.get_setBucket_key]; exact hkey

theorem relinkFold_bwd (hFn : Nat → Nat) (n : Nat) :
    ∀ (ids : List Nat) (st : Pool × List (List Nat)) (bi id : Nat),
      id ∈ ((ids.foldl (relinkStep hFn n) st).2).getD bi [] →
      id ∈ st.2.getD bi [] ∨
        (id ∈ ids ∧ (st.1.get id).map (fun nd => GetIndex n (hFn nd.key)) = some bi) := by
  intro ids
  induction ids with
  | nil => intro st bi id h; exact Or.inl h
  | cons id0 rest ih =>
    intro st bi id h
    rw [List.foldl_cons] at h
    rcases ih _ bi id h with hin | ⟨hmem, hkey⟩
    · unfold relinkStep at hin
      cases hg : st.1.get id0 with
      | none =>
        rw [hg] at hin
        exact Or.inl hin
      | some node =>
        rw [hg] at hin
        simp only at hin
        rw [getD_set_eq_ite] at hin
        split at hin
        · next hc =>
          rcases hc with ⟨hbi, _⟩
          rcases List.mem_cons.mp hin with rfl | hin
          · refine Or.inr ⟨List.mem_cons_self _ _, ?_⟩
            rw [hg]
            simpa using hbi
          · exact Or.inl (hbi ▸ hin)
        · exact Or.inl hin
    · refine Or.inr ⟨List.mem_cons_of_mem _ hmem, ?_⟩
      unfold relinkStep at hkey
      cases hg : st.1.get id0 with
      | none =>
        rw [hg] at hkey
        exact hkey
      | some node =>
        rw [hg] at hkey
        simp only at hkey
        rw [Pool.get_setBucket] at hkey
        split at hkey
        · next hji =>
          subst hji
          rw [hg] at hkey ⊢
          simpa using hkey
        · exact hkey

/-! ### Resize corollaries -/

theorem Resize_len (hFn : Nat → Nat) (pool : Pool) (m : InnerMap) (n : Nat) :
    ((InnerMap.Resize hFn pool m n).2).buckets.length = n := by
  unfold InnerMap.Resize
  simp only
  rw [relinkFold_len]
  simp

theorem Resize_key (hFn : Nat → Nat) (pool : Pool) (m : InnerMap) (n j : Nat) :
    (((InnerMap.Resize hFn pool m n).1).get j).map Node.key =
      (pool.get j).map Node.key := by
  unfold InnerMap.Resize
  simp only
  rw [relinkFold_key]

theorem Resize_value (hFn : Nat → Nat) (pool : Pool) (m : InnerMap) (n j : Nat) :
    (((InnerMap.Resize hFn pool m n).1).get j).map Node.value =
      (pool.get j).map Node.value := by
  unfold InnerMap.Resize
  simp only
  rw [relinkFold_value]

theorem Resize_mem_fwd (hFn : Nat → Nat) (pool : Pool) (m : InnerMap) (n : Nat)
    (hn1 : 1 ≤ n) (hn2 : n ≤ 2 ^ 32) (id k : Nat)
    (hmem : id ∈ m.buckets.flatten)
    (hkey : (pool.get id).map Node.key = some k) :
    id ∈ ((InnerMap.Resize hFn pool m n).2).buckets.getD (GetIndex n (hFn k)) [] := by
  unfold InnerMap.Resize
  simp only
  exact relinkFold_fwd hFn n hn1 hn2 _ (pool, List.replicate n []) id k
    (by simp) hmem hkey

theorem Resize_mem_bwd (hFn : Nat → Nat) (pool : Pool) (m : InnerMap) (n bi id : Nat)
    (h : id ∈ ((InnerMap.Resize hFn pool m n).2).buckets.getD bi []) :
    id ∈ m.buckets.flatten ∧
      (pool.get id).map (fun nd => GetIndex n (hFn nd.key)) = some bi := by
  unfold InnerMap.Resize at h
  simp only at h
  rcases relinkFold_bwd hFn n _ (pool, List.replicate n []) bi id h with hin | hr
  · rw [getD_replicate_nil] at hin
    simp at hin
  · exact hr

/-- C5: on insert, when the incremented live count exceeds the stored fill
capacity, the shard's bucket array is replaced by one whose length is
`GetNextPowerOfTwo(2·(live+1))` — the least power of two `≥ 2·(live+1)`,
always a power of two — and otherwise keeps its length; a resize relinks
exactly the surviving nodes, each into the bucket recomputed from its
key's hash under the new length, and stores the fill capacity
`⌊7·buckets/8⌋` of the new length. -/
theorem c5_resize_policy :
    (∀ v, 1 ≤ v → v ≤ 2 ^ 31 →
       v ≤ GetNextPowerOfTwo v ∧
       (∃ i, i ≤ 31 ∧ GetNextPowerOfTwo v = 2 ^ i) ∧
       (∀ j i2, j = 2 ^ i2 → v ≤ j → GetNextPowerOfTwo v ≤ j)) ∧
    (∀ (hFn : Nat → Nat) (pool : Pool) (m : InnerMap) (hash key value : Nat),
       (m.count + 1 > m.fillCapacity →
         ((InnerMap.Insert_Lockless hFn pool m hash key value).2.2).buckets.length =
           GetNextPowerOfTwo ((m.count + 1) * 2 % 2 ^ 32)) ∧
       (¬ m.count + 1 > m.fillCapacity →
         ((InnerMap.Insert_Lockless hFn pool m hash key value).2.2).buckets.length =
           m.buckets.length)) ∧
    (∀ (hFn : Nat → Nat) (pool : Pool) (m : InnerMap) (n : Nat),
       ((InnerMap.Resize hFn pool m n).2).buckets.length = n ∧
       ((InnerMap.Resize hFn pool m n).2).fillCapacity = n * 7 % 2 ^ 32 / 8 ∧
       (1 ≤ n → n ≤ 2 ^ 32 → ∀ id k,
          id ∈ m.buckets.flatten → (pool.get id).map Node.key = some k →
          id ∈ ((InnerMap.Resize hFn pool m n).2).buckets.getD (GetIndex n (hFn k)) []) ∧
       (∀ bi id, id ∈ ((InnerMap.Resize hFn pool m n).2).buckets.getD bi [] →
          id ∈ m.buckets.flatten ∧
          (pool.get id).map (fun nd => GetIndex n (hFn nd.key)) = some bi)) := by
  refine ⟨?_, ?_, ?_⟩
  · intro v hv1 hv2
    exact ⟨GetNextPowerOfTwo_ge v hv2, GetNextPowerOfTwo_pow v,
      fun j i2 hj hvj => GetNextPowerOfTwo_least v j i2 hj hvj⟩
  · intro hFn pool m hash key value
    constructor
    · intro htrig
      unfold InnerMap.Insert_Lockless
      simp only [htrig, if_pos]
      split
      · rw [Resize_len]
      · simp only [List.length_set]
        rw [Resize_len]
    · intro htrig
      unfold InnerMap.Insert_Lockless
      simp only [if_neg htrig]
      split
      · rfl
      · simp only [List.length_set]
  · intro hFn pool m n
    refine ⟨Resize_len hFn pool m n, rfl, ?_, ?_⟩
    · intro hn1 hn2 id k hmem hkey
      exact Resize_mem_fwd hFn pool m n hn1 hn2 id k hmem hkey
    · intro bi id h
      exact Resize_mem_bwd hFn pool m n bi id h

/-- C5 witness: at `v = 5` the next power of two is `8`; inserting into a
fresh shard (count 0, fill capacity 0) triggers the resize and produces a
bucket array of length `GetNextPowerOfTwo 2 = 2`. -/
theorem c5_resize_policy_witness :
    (5 ≤ GetNextPowerOfTwo 5 ∧
      (∃ i, i ≤ 31 ∧ GetNextPowerOfTwo 5 = 2 ^ i) ∧
      (∀ j i2, j = 2 ^ i2 → 5 ≤ j → GetNextPowerOfTwo 5 ≤ j)) ∧
    ((InnerMap.Insert_Lockless idHash { slots := [], count := 0 } InnerMap.empty
        0 0 1).2.2).buckets.length =
      GetNextPowerOfTwo ((InnerMap.empty.count + 1) * 2 % 2 ^ 32) :=
  ⟨c5_resize_policy.1 5 (by decide) (by norm_num),
   (c5_resize_policy.2.1 idHash { slots := [], count := 0 } InnerMap.empty 0 0 1).1
     (by decide)⟩

/-! ### Helper lemmas: bucket find across a resize -/

theorem keyMatches_iff (p : Pool) (k id : Nat) :
    keyMatches p k id = true ↔ (p.get id).map Node.key = some k := by
  unfold keyMatches
  cases h : p.get id with
  | none => simp
  | some n => simp

theorem mem_flatten_of_getD {L : List (List Nat)} {bi id : Nat}
    (h : id ∈ L.getD bi []) : id ∈ L.flatten := by
  by_cases hlt : bi < L.length
  · rw [List.getD_eq_getElem?_getD, List.getElem?_eq_getElem hlt] at h
    exact List.mem_flatten_of_mem (List.getElem_mem hlt) h
  · rw [List.getD_eq_getElem?_getD, List.getElem?_eq_none (by omega)] at h
    simp at h

theorem flatten_to_getD {L : List (List Nat)} {id : Nat}
    (h : id ∈ L.flatten) : ∃ bi, bi < L.length ∧ id ∈ L.getD bi [] := by
  rcases List.mem_flatten.mp h with ⟨l, hl, hid⟩
  rcases List.mem_iff_getElem.mp hl with ⟨bi, hbi, heq⟩
  refine ⟨bi, hbi, ?_⟩
  rw [List.getD_eq_getElem?_getD, List.getElem?_eq_getElem hbi, heq]
  exact hid

theorem getD_lt_of_mem {L : List (List Nat)} {bi id : Nat}
    (h : id ∈ L.getD bi []) : bi < L.length := by
  by_cases hlt : bi < L.length
  · exact hlt
  · rw [List.getD_eq_getElem?_getD, List.getElem?_eq_none (by omega)] at h
    simp at h

/-- After a resize to `n` buckets, looking up `k` in the bucket recomputed
from its hash returns exactly what the lookup in the old bucket array
returned, provided the old array indexes its nodes consistently and no
key is stored in two nodes. -/
theorem find_resize (hFn : Nat → Nat) (pool : Pool) (m : InnerMap) (n k : Nat)
    (hn1 : 1 ≤ n) (hn2 : n ≤ 2 ^ 32)
    (hplace : ∀ bi, bi < m.buckets.length → ∀ id ∈ m.buckets.getD bi [],
      (pool.get id).map (fun nd => GetIndex m.buckets.length (hFn nd.key)) = some bi)
    (huniq : ∀ id1 id2, id1 ∈ m.buckets.flatten → id2 ∈ m.buckets.flatten →
      (pool.get id1).map Node.key = (pool.get id2).map Node.key → id1 = id2) :
    bucketFind (InnerMap.Resize hFn pool m n).1
        (((InnerMap.Resize hFn pool m n).2).buckets.getD (GetIndex n (hFn k)) []) k =
      bucketFind pool (m.buckets.getD (GetIndex m.buckets.length (hFn k)) []) k := by
  cases hpre : bucketFind pool (m.buckets.getD (GetIndex m.buckets.length (hFn k)) []) k with
  | some id =>
    have hpre' := hpre
    unfold bucketFind at hpre'
    have hidmem : id ∈ m.buckets.getD (GetIndex m.buckets.length (hFn k)) [] :=
      List.mem_of_find?_eq_some hpre'
    have hpred : (pool.get id).map Node.key = some k :=
      (keyMatches_iff pool k id).mp (List.find?_some hpre')
    have hflat : id ∈ m.buckets.flatten := mem_flatten_of_getD hidmem
    have hpost_mem :
        id ∈ ((InnerMap.Resize hFn pool m n).2).buckets.getD (GetIndex n (hFn k)) [] :=
      Resize_mem_fwd hFn pool m n hn1 hn2 id k hflat hpred
    have hpred1 : (((InnerMap.Resize hFn pool m n).1).get id).map Node.key = some k := by
      rw [Resize_key]
      exact hpred
    cases hpostf : bucketFind (InnerMap.Resize hFn pool m n).1
        (((InnerMap.Resize hFn pool m n).2).buckets.getD (GetIndex n (hFn k)) []) k with
    | none =>
      rw [bucketFind, List.find?_eq_none] at hpostf
      exact absurd ((keyMatches_iff _ k id).mpr hpred1) (hpostf id hpost_mem)
    | some idB =>
      have hpostf' := hpostf
      unfold bucketFind at hpostf'
      have hmemB := List.mem_of_find?_eq_some hpostf'
      have hpredB : (((InnerMap.Resize hFn pool m n).1).get idB).map Node.key = some k :=
        (keyMatches_iff _ k idB).mp (List.find?_some hpostf')
      rw [Resize_key] at hpredB
      have hflatB : idB ∈ m.buckets.flatten :=
        (Resize_mem_bwd hFn pool m n _ idB hmemB).1
      have : idB = id := huniq idB id hflatB hflat (by rw [hpredB, hpred])
      rw [this]
  | none =>
    cases hpostf : bucketFind (InnerMap.Resize hFn pool m n).1
        (((InnerMap.Resize hFn pool m n).2).buckets.getD (GetIndex n (hFn k)) []) k with
    | none => rfl
    | some idB =>
      have hpostf' := hpostf
      unfold bucketFind at hpostf'
      have hmemB := List.mem_of_find?_eq_some hpostf'
      have hpredB : (((InnerMap.Resize hFn pool m n).1).get idB).map Node.key = some k :=
        (keyMatches_iff _ k idB).mp (List.find?_some hpostf')
      rw [Resize_key] at hpredB
      have hflatB : idB ∈ m.buckets.flatten :=
        (Resize_mem_bwd hFn pool m n _ idB hmemB).1
      rcases flatten_to_getD hflatB with ⟨bj, hbj, hmemj⟩
      have hplaced := hplace bj hbj idB hmemj
      cases hg : pool.get idB with
      | none => rw [hg] at hpredB; simp at hpredB
      | some nd =>
        rw [hg] at hpredB hplaced
        have hkeq : nd.key = k := by simpa using hpredB
        have hbj0 : GetIndex m.buckets.length (hFn k) = bj := by
          rw [← hkeq]
          simpa using hplaced
        rw [bucketFind, List.find?_eq_none] at hpre
        have hpredB' : keyMatches pool k idB = true := by
          unfold keyMatches
          rw [hg]
          simpa using hkeq
        exact absurd hpredB' (hpre idB (hbj0 ▸ hmemj))

/-! ### Helper lemmas: extracting shard facts from `Wf` -/

theorem Wf_shard_place (S : Nat) (hFn : Nat → Nat) (hm : HashMap) (si : Nat)
    (hwf : Wf S hFn hm) (hsi : si < S) :
    ∀ bi, bi < (hm.innerMaps.getD si InnerMap.empty).buckets.length →
      ∀ id ∈ (hm.innerMaps.getD si InnerMap.empty).buckets.getD bi [],
      (hm.sharedPool.get id).map
          (fun nd => GetIndex (hm.innerMaps.getD si InnerMap.empty).buckets.length
            (hFn nd.key)) = some bi :=
  fun bi hbi id hid => ((hwf.2.2.1 si hsi) bi hbi id hid).2.1

theorem Wf_shard_uniq (S : Nat) (hFn : Nat → Nat) (hm : HashMap) (si : Nat)
    (hwf : Wf S hFn hm) (hsi : si < S) :
    ∀ id1 id2, id1 ∈ (hm.innerMaps.getD si InnerMap.empty).buckets.flatten →
      id2 ∈ (hm.innerMaps.getD si InnerMap.empty).buckets.flatten →
      (hm.sharedPool.get id1).map Node.key = (hm.sharedPool.get id2).map Node.key →
      id1 = id2 := by
  intro id1 id2 h1 h2 hkeys
  by_contra hne
  have hsilen : si < hm.innerMaps.length := by rw [hwf.1]; exact hsi
  have hmem : hm.innerMaps.getD si InnerMap.empty ∈ hm.innerMaps := by
    rw [List.getD_eq_getElem?_getD, List.getElem?_eq_getElem hsilen]
    exact List.getElem_mem _
  have hsub : List.Sublist (hm.innerMaps.getD si InnerMap.empty).reachable hm.allIds :=
    List.sublist_flatten_of_mem (List.mem_map_of_mem _ hmem)
  have hpw : ((hm.innerMaps.getD si InnerMap.empty).reachable).Pairwise
      (fun a b => (hm.sharedPool.get a).map Node.key ≠ (hm.sharedPool.get b).map Node.key) :=
    (hwf.2.2.2.2).sublist hsub
  have hsymm : Symmetric (fun a b =>
      (hm.sharedPool.get a).map Node.key ≠ (hm.sharedPool.get b).map Node.key) :=
    fun _ _ h => h.symm
  exact hpw.forall hsymm h1 h2 hne hkeys

/-! ### Helper lemmas: shard-level insert against an existing or absent key -/

theorem Insert_Lockless_hit (hFn : Nat → Nat) (pool : Pool) (m : InnerMap)
    (k v id : Nat)
    (hplace : ∀ bi, bi < m.buckets.length → ∀ i ∈ m.buckets.getD bi [],
      (pool.get i).map (fun nd => GetIndex m.buckets.length (hFn nd.key)) = some bi)
    (huniq : ∀ id1 id2, id1 ∈ m.buckets.flatten → id2 ∈ m.buckets.flatten →
      (pool.get id1).map Node.key = (pool.get id2).map Node.key → id1 = id2)
    (hfind : InnerMap.Find_Lockless pool m (hFn k) k = some id) :
    (InnerMap.Insert_Lockless hFn pool m (hFn k) k v).1 = none ∧
    InnerMap.Find_Lockless (InnerMap.Insert_Lockless hFn pool m (hFn k) k v).2.1
      (InnerMap.Insert_Lockless hFn pool m (hFn k) k v).2.2 (hFn k) k = some id ∧
    (∀ j, ((InnerMap.Insert_Lockless hFn pool m (hFn k) k v).2.1.get j).map Node.value =
      (pool.get j).map Node.value) := by
  by_cases htrig : m.count + 1 > m.fillCapacity
  · have hn1 : 1 ≤ GetNextPowerOfTwo ((m.count + 1) * 2 % 2 ^ 32) :=
      GetNextPowerOfTwo_pos _
    have hn2 : GetNextPowerOfTwo ((m.count + 1) * 2 % 2 ^ 32) ≤ 2 ^ 32 := by
      have := c_powerOfTwoTable_le _ (GetNextPowerOfTwo_mem ((m.count + 1) * 2 % 2 ^ 32))
      omega
    have hres := find_resize hFn pool { m with count := m.count + 1 }
      (GetNextPowerOfTwo ((m.count + 1) * 2 % 2 ^ 32)) k hn1 hn2 hplace huniq
    have hres' : bucketFind
        (InnerMap.Resize hFn pool { m with count := m.count + 1 }
          (GetNextPowerOfTwo ((m.count + 1) * 2 % 2 ^ 32))).1
        (((InnerMap.Resize hFn pool { m with count := m.count + 1 }
            (GetNextPowerOfTwo ((m.count + 1) * 2 % 2 ^ 32))).2).buckets.getD
          (GetIndex (GetNextPowerOfTwo ((m.count + 1) * 2 % 2 ^ 32)) (hFn k)) []) k =
        some id := by
      rw [hres]
      exact hfind
    have hlen := Resize_len hFn pool { m with count := m.count + 1 }
      (GetNextPowerOfTwo ((m.count + 1) * 2 % 2 ^ 32))
    unfold InnerMap.Insert_Lockless
    simp only [if_pos htrig]
    rw [hlen, hres']
    rw [if_pos (show (some id : Option Nat).isSome = true from rfl)]
    refine ⟨rfl, ?_, ?_⟩
    · unfold InnerMap.Find_Lockless
      rw [hlen]
      exact hres'
    · intro j
      rw [Resize_value]
  · unfold InnerMap.Insert_Lockless
    simp only [if_neg htrig]
    have hfind' : bucketFind pool
        (({ m with count := m.count + 1 } : InnerMap).buckets.getD
          (GetIndex ({ m with count := m.count + 1 } : InnerMap).buckets.length (hFn k)) [])
        k = some id := hfind
    rw [hfind']
    rw [if_pos (show (some id : Option Nat).isSome = true from rfl)]
    exact ⟨rfl, hfind, fun j => rfl⟩

theorem Insert_Lockless_miss (hFn : Nat → Nat) (pool : Pool) (m : InnerMap)
    (k v : Nat)
    (hplace : ∀ bi, bi < m.buckets.length → ∀ i ∈ m.buckets.getD bi [],
      (pool.get i).map (fun nd => GetIndex m.buckets.length (hFn nd.key)) = some bi)
    (huniq : ∀ id1 id2, id1 ∈ m.buckets.flatten → id2 ∈ m.buckets.flatten →
      (pool.get id1).map Node.key = (pool.get id2).map Node.key → id1 = id2)
    (hfind : InnerMap.Find_Lockless pool m (hFn k) k = none) :
    ((InnerMap.Insert_Lockless hFn pool m (hFn k) k v).1).isSome = true := by
  by_cases htrig : m.count + 1 > m.fillCapacity
  · have hn1 : 1 ≤ GetNextPowerOfTwo ((m.count + 1) * 2 % 2 ^ 32) :=
      GetNextPowerOfTwo_pos _
    have hn2 : GetNextPowerOfTwo ((m.count + 1) * 2 % 2 ^ 32) ≤ 2 ^ 32 := by
      have := c_powerOfTwoTable_le _ (GetNextPowerOfTwo_mem ((m.count + 1) * 2 % 2 ^ 32))
      omega
    have hres := find_resize hFn pool { m with count := m.count + 1 }
      (GetNextPowerOfTwo ((m.count + 1) * 2 % 2 ^ 32)) k hn1 hn2 hplace huniq
    have hres' : bucketFind
        (InnerMap.Resize hFn pool { m with count := m.count + 1 }
          (GetNextPowerOfTwo ((m.count + 1) * 2 % 2 ^ 32))).1
        (((InnerMap.Resize hFn pool { m with count := m.count + 1 }
            (GetNextPowerOfTwo ((m.count + 1) * 2 % 2 ^ 32))).2).buckets.getD
          (GetIndex (GetNextPowerOfTwo ((m.count + 1) * 2 % 2 ^ 32)) (hFn k)) []) k =
        none := by
      rw [hres]
      exact hfind
    have hlen := Resize_len hFn pool { m with count := m.count + 1 }
      (GetNextPowerOfTwo ((m.count + 1) * 2 % 2 ^ 32))
    unfold InnerMap.Insert_Lockless
    simp only [if_pos htrig]
    rw [hlen, hres']
    simp
  · unfold InnerMap.Insert_Lockless
    simp only [if_neg htrig]
    have hfind' : bucketFind pool
        (({ m with count := m.count + 1 } : InnerMap).buckets.getD
          (GetIndex ({ m with count := m.count + 1 } : InnerMap).buckets.length (hFn k)) [])
        k = none := hfind
    rw [hfind']
    simp

/-- C7: for every key `k` already present in a well-formed map,
`insert(k, v')` returns false, and a subsequent `find(k)` still returns
true and observes the value that was stored for `k` before the call (the
last successfully inserted value). -/
theorem c7_insert_existing_preserves_value (S : Nat) (hFn : Nat → Nat)
    (hm : HashMap) (k v v' : Nat) (hwf : Wf S hFn hm)
    (hfind : HashMap.findValue S hFn hm k = some v) :
    (HashMap.insert S hFn hm k v').1 = false ∧
    HashMap.findValue S hFn (HashMap.insert S hFn hm k v').2 k = some v := by
  have hsi : GetInnerMapIndex S (hFn k) < S := by
    have hS : 0 < S := hwf.2.1
    unfold GetInnerMapIndex
    have := Nat.and_le_right (n := hFn k) (m := S - 1)
    omega
  rcases Option.bind_eq_some.mp hfind with ⟨id, hfc, hval⟩
  have hplace := Wf_shard_place S hFn hm (GetInnerMapIndex S (hFn k)) hwf hsi
  have huniq := Wf_shard_uniq S hFn hm (GetInnerMapIndex S (hFn k)) hwf hsi
  have hfl : InnerMap.Find_Lockless hm.sharedPool
      (hm.innerMaps.getD (GetInnerMapIndex S (hFn k)) InnerMap.empty) (hFn k) k =
      some id := hfc
  have hhit := Insert_Lockless_hit hFn hm.sharedPool
    (hm.innerMaps.getD (GetInnerMapIndex S (hFn k)) InnerMap.empty) k v' id
    hplace huniq hfl
  have hins1 : (HashMap.insert S hFn hm k v').1 =
      ((InnerMap.Insert_Lockless hFn hm.sharedPool
        (hm.innerMaps.getD (GetInnerMapIndex S (hFn k)) InnerMap.empty)
        (hFn k) k v').1).isSome := rfl
  have hsilen : GetInnerMapIndex S (hFn k) < hm.innerMaps.length := by
    rw [hwf.1]
    exact hsi
  have hgetset : ((hm.innerMaps.set (GetInnerMapIndex S (hFn k))
      (InnerMap.Insert_Lockless hFn hm.sharedPool
        (hm.innerMaps.getD (GetInnerMapIndex S (hFn k)) InnerMap.empty)
        (hFn k) k v').2.2).getD (GetInnerMapIndex S (hFn k)) InnerMap.empty) =
      (InnerMap.Insert_Lockless hFn hm.sharedPool
        (hm.innerMaps.getD (GetInnerMapIndex S (hFn k)) InnerMap.empty)
        (hFn k) k v').2.2 := by
    rw [getD_set_eq_ite]
    simp [hsilen]
  constructor
  · rw [hins1, hhit.1]
    rfl
  · show ((HashMap.insert S hFn hm k v').2.Find_Concurrent S hFn k).bind
        (fun i => (((HashMap.insert S hFn hm k v').2).sharedPool.get i).map Node.value) =
      some v
    have hfc' : (HashMap.insert S hFn hm k v').2.Find_Concurrent S hFn k = some id := by
      show InnerMap.Find_Lockless ((HashMap.insert S hFn hm k v').2).sharedPool
          (((HashMap.insert S hFn hm k v').2).innerMaps.getD
            (GetInnerMapIndex S (hFn k)) InnerMap.empty) (hFn k) k = some id
      have hmaps : ((HashMap.insert S hFn hm k v').2).innerMaps =
          hm.innerMaps.set (GetInnerMapIndex S (hFn k))
            (InnerMap.Insert_Lockless hFn hm.sharedPool
              (hm.innerMaps.getD (GetInnerMapIndex S (hFn k)) InnerMap.empty)
              (hFn k) k v').2.2 := rfl
      rw [hmaps, hgetset]
      exact hhit.2.1
    rw [hfc']
    show (((InnerMap.Insert_Lockless hFn hm.sharedPool
        (hm.innerMaps.getD (GetInnerMapIndex S (hFn k)) InnerMap.empty)
        (hFn k) k v').2.1).get id).map Node.value = some v
    rw [hhit.2.2 id]
    exact hval

/-- C7 witness: in the one-entry map `exMap1` (key 0 bound to value 1),
re-inserting key 0 with value 9 returns false and `find(0)` still yields
value 1. -/
theorem c7_insert_existing_preserves_value_witness :
    (HashMap.insert 4 idHash exMap1 0 9).1 = false ∧
    HashMap.findValue 4 idHash (HashMap.insert 4 idHash exMap1 0 9).2 0 = some 1 :=
  c7_insert_existing_preserves_value 4 idHash exMap1 0 1 9 (by decide) (by decide)

/-- C3 (amended): the `PagingObjectPool::Reserve` loop never returns a null
pointer — its only exits produce a node, crash, or exhaust the model's
iteration bound — and, with the allocator able to satisfy every request,
`HashMap::insert` on a well-formed map returns true exactly when the key
was absent (a new entry is created) and false exactly when it was
already present. -/
theorem c3_insert_iff_absent :
    (∀ (P budget fuel : Nat) (st : PagingObjectPool),
      (PagingObjectPool.ReserveLoop P budget fuel st).1 ≠ PReserveOutcome.nullReturn) ∧
    (∀ (S : Nat) (hFn : Nat → Nat) (hm : HashMap) (k v : Nat), Wf S hFn hm →
      ((HashMap.insert S hFn hm k v).1 = true ↔
        HashMap.Find_Concurrent S hFn hm k = none)) := by
  constructor
  · intro P budget fuel
    induction fuel generalizing budget with
    | zero =>
      intro st
      simp [PagingObjectPool.ReserveLoop]
    | succ f ih =>
      intro st
      unfold PagingObjectPool.ReserveLoop
      cases hpop : st.PopPageFromFreeList with
      | none => simp
      | some pr =>
        obtain ⟨po, st1⟩ := pr
        cases po with
        | none =>
          cases halloc : st1.AllocateNewPage P budget with
          | none => simp [halloc]
          | some pb =>
            obtain ⟨st2, b⟩ := pb
            simp only [halloc]
            exact ih b st2
        | some pageIdx =>
          cases hpg : st1.pageList[pageIdx]? with
          | none => simp [hpg]
          | some page =>
            simp only [hpg]
            cases hres : (FixedSizeObjectPool.Reserve P page.data).1 with
            | none =>
              simp only [hres]
              exact ih budget st1
            | some slotIdx =>
              simp only [hres]
              split
              · simp
              · split
                · simp
                · simp
  · intro S hFn hm k v hwf
    have hsi : GetInnerMapIndex S (hFn k) < S := by
      have hS : 0 < S := hwf.2.1
      unfold GetInnerMapIndex
      have := Nat.and_le_right (n := hFn k) (m := S - 1)
      omega
    have hplace := Wf_shard_place S hFn hm (GetInnerMapIndex S (hFn k)) hwf hsi
    have huniq := Wf_shard_uniq S hFn hm (GetInnerMapIndex S (hFn k)) hwf hsi
    have hins1 : (HashMap.insert S hFn hm k v).1 =
        ((InnerMap.Insert_Lockless hFn hm.sharedPool
          (hm.innerMaps.getD (GetInnerMapIndex S (hFn k)) InnerMap.empty)
          (hFn k) k v).1).isSome := rfl
    constructor
    · intro htrue
      cases hfc : HashMap.Find_Concurrent S hFn hm k with
      | none => rfl
      | some id =>
        exfalso
        have hhit := Insert_Lockless_hit hFn hm.sharedPool
          (hm.innerMaps.getD (GetInnerMapIndex S (hFn k)) InnerMap.empty) k v id
          hplace huniq hfc
        rw [hins1, hhit.1] at htrue
        simp at htrue
    · intro hnone
      rw [hins1]
      exact Insert_Lockless_miss hFn hm.sharedPool
        (hm.innerMaps.getD (GetInnerMapIndex S (hFn k)) InnerMap.empty) k v
        hplace huniq hnone

/-- C3 witness: inserting the absent key 5 into `exMap1` returns true;
`exMap1` is well-formed and `find(5)` is none beforehand. -/
theorem c3_insert_iff_absent_witness :
    (HashMap.insert 4 idHash exMap1 5 7).1 = true ↔
      HashMap.Find_Concurrent 4 idHash exMap1 5 = none :=
  c3_insert_iff_absent.2 4 idHash exMap1 5 7 (by decide)

/-! ### Helper lemmas: the packed free-list head word -/

theorem headPageIndexMask_eq : c_headPageIndexMask = 2 ^ 28 - 1 := by decide

theorem headNextIndexMask_eq : c_headNextIndexMask = (2 ^ 28 - 1) <<< 28 := by decide

theorem packHeadWord_head (c nx h : Nat) (hh : h < 2 ^ 28) :
    packHeadWord c nx h &&& c_headPageIndexMask = h := by
  rw [headPageIndexMask_eq, Nat.and_pow_two_sub_one_eq_mod]
  apply Nat.eq_of_testBit_eq
  intro i
  rw [Nat.testBit_mod_two_pow]
  unfold packHeadWord
  rw [Nat.testBit_or, Nat.testBit_or, Nat.testBit_shiftLeft, Nat.testBit_shiftLeft]
  by_cases hi : i < 28
  · have h56 : ¬ 56 ≤ i := by omega
    have h28 : ¬ 28 ≤ i := by omega
    simp [hi, h56, h28]
  · have hbit : h.testBit i = false := by
      apply Nat.testBit_lt_two_pow
      have : (2 : Nat) ^ 28 ≤ 2 ^ i := Nat.pow_le_pow_right (by omega) (by omega)
      omega
    simp [hi, hbit]

theorem packHeadWord_next (c nx h : Nat) (hh : h < 2 ^ 28) (hnx : nx < 2 ^ 28) :
    (packHeadWord c nx h &&& c_headNextIndexMask) >>> 28 = nx := by
  rw [headNextIndexMask_eq]
  apply Nat.eq_of_testBit_eq
  intro i
  rw [Nat.testBit_shiftRight, Nat.testBit_and]
  unfold packHeadWord
  rw [Nat.testBit_or, Nat.testBit_or, Nat.testBit_shiftLeft, Nat.testBit_shiftLeft,
    Nat.testBit_shiftLeft, Nat.testBit_two_pow_sub_one]
  by_cases hi : i < 28
  · have h56 : ¬ 56 ≤ 28 + i := by omega
    have h28 : 28 ≤ 28 + i := by omega
    have hsub : 28 + i - 28 = i := by omega
    have hbit : h.testBit (28 + i) = false := by
      apply Nat.testBit_lt_two_pow
      have : (2 : Nat) ^ 28 ≤ 2 ^ (28 + i) := Nat.pow_le_pow_right (by omega) (by omega)
      omega
    simp [h56, h28, hsub, hbit, hi]
  · have hbitn : nx.testBit i = false := by
      apply Nat.testBit_lt_two_pow
      have : (2 : Nat) ^ 28 ≤ 2 ^ i := Nat.pow_le_pow_right (by omega) (by omega)
      omega
    have hmask : ¬ (28 + i - 28) < 28 := by omega
    simp [hmask, hbitn]
    intro h'
    omega

/-! ### Helper lemmas: the free-list chain -/

theorem pageAt_exists {st : PagingObjectPool} {i : Nat}
    (h : (st.pageList[i]?).map Page.pageIndex = some i) :
    ∃ pg, st.pageList[i]? = some pg ∧ pg.pageIndex = i := by
  cases hx : st.pageList[i]? with
  | none => rw [hx] at h; simp at h
  | some pg =>
    rw [hx] at h
    exact ⟨pg, rfl, by simpa using h⟩

theorem nextFreeOf_set (st st2 : PagingObjectPool) (i : Nat) (pg' : Page) (j : Nat)
    (h : st2.pageList = st.pageList.set i pg') :
    st2.nextFreeOf j =
      if i = j ∧ i < st.pageList.length then pg'.nextFreeIndex else st.nextFreeOf j := by
  unfold PagingObjectPool.nextFreeOf
  rw [h, List.getElem?_set]
  by_cases hij : i = j
  · subst hij
    by_cases hlen : i < st.pageList.length
    · simp [hlen]
    · simp only [hlen, and_false, if_false, if_neg, if_pos rfl]
      rw [List.getElem?_eq_none (by omega)]
      simp [hlen]
  · simp [hij]

theorem chainOkB_congr (st st2 : PagingObjectPool) :
    ∀ fl : List Nat, (∀ x ∈ fl, st2.nextFreeOf x = st.nextFreeOf x) →
      st2.chainOkB fl = st.chainOkB fl := by
  intro fl
  induction fl with
  | nil => intro _; rfl
  | cons p tail ih =>
    intro hcong
    cases tail with
    | nil =>
      unfold PagingObjectPool.chainOkB
      rw [hcong p (List.mem_cons_self _ _)]
    | cons q rest =>
      unfold PagingObjectPool.chainOkB
      rw [hcong p (List.mem_cons_self _ _),
        ih fun x hx => hcong x (List.mem_cons_of_mem _ hx)]

theorem chain_next_mem (st : PagingObjectPool) :
    ∀ (fl : List Nat) (p : Nat), st.chainOkB fl = true → p ∈ fl →
      st.nextFreeOf p = c_TailPageIndex ∨ st.nextFreeOf p ∈ fl := by
  intro fl
  induction fl with
  | nil => intro p _ hp; simp at hp
  | cons q tail ih =>
    intro p hch hp
    cases tail with
    | nil =>
      unfold PagingObjectPool.chainOkB at hch
      rcases List.mem_cons.mp hp with rfl | hp
      · left
        simpa using hch
      · simp at hp
    | cons r rest =>
      unfold PagingObjectPool.chainOkB at hch
      rw [Bool.and_eq_true] at hch
      rcases List.mem_cons.mp hp with rfl | hp
      · right
        have : st.nextFreeOf p = r := by simpa using hch.1
        rw [this]
        exact List.mem_cons_of_mem _ (List.mem_cons_self _ _)
      · rcases ih p hch.2 hp with hl | hr
        · exact Or.inl hl
        · exact Or.inr (List.mem_cons_of_mem _ hr)

theorem chain_ne_invalid (st : PagingObjectPool) (fl : List Nat)
    (hbound : ∀ x ∈ fl, x < st.numPages) (hmax : st.numPages ≤ c_MaxPages)
    (hch : st.chainOkB fl = true) :
    ∀ p ∈ fl, st.nextFreeOf p ≠ c_InvalidPageIndex := by
  intro p hp
  rcases chain_next_mem st fl p hch hp with hl | hr
  · rw [hl]
    decide
  · have := hbound _ hr
    have hmax' : c_MaxPages = 268435453 := by decide
    have hinv : c_InvalidPageIndex = 268435455 := by decide
    omega

theorem freelist_push_abort (st : PagingObjectPool) (p : Nat)
    (h : st.nextFreeOf p ≠ c_InvalidPageIndex) :
    st.PushPageToFreeList p = some st := by
  unfold PagingObjectPool.PushPageToFreeList
  cases hpg : st.pageList[p]? with
  | none => rfl
  | some page =>
    have hne : page.nextFreeIndex ≠ c_InvalidPageIndex := by
      unfold PagingObjectPool.nextFreeOf at h
      rw [hpg] at h
      exact h
    simp [hne]

theorem freelist_mem_iff (st : PagingObjectPool) (fl : List Nat)
    (hinv : FreeListInv st fl) (p : Nat) (hp : p < st.numPages) :
    st.nextFreeOf p = c_InvalidPageIndex ↔ p ∉ fl := by
  obtain ⟨h1, h2, h3, h4, h5, h6, h7, h8, h9⟩ := hinv
  constructor
  · intro hfree hmem
    exact chain_ne_invalid st fl h5 h2 h8 p hmem hfree
  · intro hnot
    exact h9 p hp hnot

theorem freelist_push_ok (st : PagingObjectPool) (fl : List Nat)
    (hinv : FreeListInv st fl) (p : Nat) (hp : p < st.numPages)
    (hfree : st.nextFreeOf p = c_InvalidPageIndex) :
    ∃ st2, st.PushPageToFreeList p = some st2 ∧ FreeListInv st2 (p :: fl) := by
  obtain ⟨h1, h2, h3, h4, h5, h6, h7, h8, h9⟩ := hinv
  have hmaxval : c_MaxPages = 268435453 := by decide
  have htailval : c_TailPageIndex = 268435454 := by decide
  obtain ⟨pg, hpg, hpgidx⟩ := pageAt_exists (h3 p hp)
  have hpgfree : pg.nextFreeIndex = c_InvalidPageIndex := by
    unfold PagingObjectPool.nextFreeOf at hfree
    rw [hpg] at hfree
    exact hfree
  have hpnot : p ∉ fl := fun hmem => chain_ne_invalid st fl h5 h2 h8 p hmem hfree
  have hheadlt : st.freeListHeadIndex &&& c_headPageIndexMask < 2 ^ 28 := by
    rw [h6]
    cases fl with
    | nil => decide
    | cons q rest =>
      have := h5 q (List.mem_cons_self _ _)
      simp only [List.headD_cons]
      omega
  have hguard : pg.pageIndex < st.numPages ∧
      (st.freeListHeadIndex &&& c_headPageIndexMask < st.numPages ∨
        st.freeListHeadIndex &&& c_headPageIndexMask = c_TailPageIndex) := by
    refine ⟨by rw [hpgidx]; exact hp, ?_⟩
    rw [h6]
    cases fl with
    | nil => right; rfl
    | cons q rest =>
      left
      simp only [List.headD_cons]
      exact h5 q (List.mem_cons_self _ _)
  have hplen : p < st.pageList.length := by rw [← h1]; exact hp
  have hpush : st.PushPageToFreeList p = some
      { st with
        pageList := st.pageList.set p
          { pg with nextFreeIndex := st.freeListHeadIndex &&& c_headPageIndexMask },
        freeListHeadIndex := packHeadWord
          (((st.freeListHeadIndex &&& c_headCounterMask) >>> 56 + 1) % 256)
          (st.freeListHeadIndex &&& c_headPageIndexMask) pg.pageIndex } := by
    unfold PagingObjectPool.PushPageToFreeList
    rw [hpg]
    simp only [hpgfree, if_pos, if_true, hguard, and_self, reduceIte]
  refine ⟨_, hpush, ?_⟩
  have hpidxlt : pg.pageIndex < 2 ^ 28 := by
    rw [hpgidx]
    omega
  refine ⟨?_, ?_, ?_, ?_, ?_, ?_, ?_, ?_, ?_⟩
  · simp only [List.length_set]
    exact h1
  · exact h2
  · intro i hi
    by_cases hip : i = p
    · subst hip
      rw [List.getElem?_set_self (by simpa using hplen)]
      simpa using hpgidx
    · rw [List.getElem?_set_ne (fun hc => hip hc.symm)]
      exact h3 i hi
  · exact List.nodup_cons.mpr ⟨hpnot, h4⟩
  · intro x hx
    rcases List.mem_cons.mp hx with rfl | hx
    · exact hp
    · exact h5 x hx
  · rw [packHeadWord_head _ _ _ hpidxlt]
    simp only [List.headD_cons]
    exact hpgidx
  · rw [packHeadWord_next _ _ _ hpidxlt hheadlt]
    simp only [List.drop_one, List.tail_cons]
    rw [h6]
  · have hset : ({ st with
        pageList := st.pageList.set p
          { pg with nextFreeIndex := st.freeListHeadIndex &&& c_headPageIndexMask },
        freeListHeadIndex := packHeadWord
          (((st.freeListHeadIndex &&& c_headCounterMask) >>> 56 + 1) % 256)
          (st.freeListHeadIndex &&& c_headPageIndexMask) pg.pageIndex } :
        PagingObjectPool).pageList = st.pageList.set p
          { pg with nextFreeIndex := st.freeListHeadIndex &&& c_headPageIndexMask } := rfl
    have hself : PagingObjectPool.nextFreeOf { st with
        pageList := st.pageList.set p
          { pg with nextFreeIndex := st.freeListHeadIndex &&& c_headPageIndexMask },
        freeListHeadIndex := packHeadWord
          (((st.freeListHeadIndex &&& c_headCounterMask) >>> 56 + 1) % 256)
          (st.freeListHeadIndex &&& c_headPageIndexMask) pg.pageIndex } p =
        st.freeListHeadIndex &&& c_headPageIndexMask := by
      rw [nextFreeOf_set st _ p _ p hset]
      simp [hplen]
    have hothers : ∀ x, x ≠ p → PagingObjectPool.nextFreeOf { st with
        pageList := st.pageList.set p
          { pg with nextFreeIndex := st.freeListHeadIndex &&& c_headPageIndexMask },
        freeListHeadIndex := packHeadWord
          (((st.freeListHeadIndex &&& c_headCounterMask) >>> 56 + 1) % 256)
          (st.freeListHeadIndex &&& c_headPageIndexMask) pg.pageIndex } x =
        st.nextFreeOf x := by
      intro x hxp
      rw [nextFreeOf_set st _ p _ x hset]
      rw [if_neg (fun hc => hxp hc.1.symm)]
    cases fl with
    | nil =>
      unfold PagingObjectPool.chainOkB
      rw [hself, h6]
      rfl
    | cons q rest =>
      unfold PagingObjectPool.chainOkB
      rw [Bool.and_eq_true]
      constructor
      · rw [hself, h6]
        simp
      · rw [chainOkB_congr st _ (q :: rest)
          (fun x hx => hothers x (fun hc => hpnot (hc ▸ hx)))]
        exact h8
  · intro x hx hnot
    have hxp : x ≠ p := fun hc => hnot (hc ▸ List.mem_cons_self _ _)
    have hset : ({ st with
        pageList := st.pageList.set p
          { pg with nextFreeIndex := st.freeListHeadIndex &&& c_headPageIndexMask },
        freeListHeadIndex := packHeadWord
          (((st.freeListHeadIndex &&& c_headCounterMask) >>> 56 + 1) % 256)
          (st.freeListHeadIndex &&& c_headPageIndexMask) pg.pageIndex } :
        PagingObjectPool).pageList = st.pageList.set p
          { pg with nextFreeIndex := st.freeListHeadIndex &&& c_headPageIndexMask } := rfl
    rw [nextFreeOf_set st _ p _ x hset]
    rw [if_neg (fun hc => hxp (hc.1.symm))]
    exact h9 x (by simpa using hx) (fun hc => hnot (List.mem_cons_of_mem _ hc))

theorem chainOkB_head_next (st : PagingObjectPool) (r : Nat) (rest2 : List Nat)
    (h : st.chainOkB (r :: rest2) = true) :
    st.nextFreeOf r = rest2.headD c_TailPageIndex := by
  cases rest2 with
  | nil =>
    unfold PagingObjectPool.chainOkB at h
    simpa using h
  | cons s t =>
    unfold PagingObjectPool.chainOkB at h
    rw [Bool.and_eq_true] at h
    simpa using h.1

theorem freelist_pop (st : PagingObjectPool) (fl : List Nat)
    (hinv : FreeListInv st fl) :
    (fl = [] → st.PopPageFromFreeList = some (none, st)) ∧
    (∀ q rest, fl = q :: rest → ∃ st2,
      st.PopPageFromFreeList = some (some q, st2) ∧
      st2.nextFreeOf q = c_InvalidPageIndex ∧ FreeListInv st2 rest) := by
  obtain ⟨h1, h2, h3, h4, h5, h6, h7, h8, h9⟩ := hinv
  have hmaxval : c_MaxPages = 268435453 := by decide
  have htailval : c_TailPageIndex = 268435454 := by decide
  constructor
  · intro hnil
    subst hnil
    have hhd : st.freeListHeadIndex &&& c_headPageIndexMask = c_TailPageIndex := by
      simpa using h6
    have hTnl : ¬ (c_TailPageIndex < st.numPages) := by omega
    simp only [PagingObjectPool.PopPageFromFreeList]
    rw [hhd]
    rw [if_neg hTnl, if_pos rfl]
  · intro q rest hfl
    subst hfl
    have hq : st.freeListHeadIndex &&& c_headPageIndexMask = q := by simpa using h6
    have hqlt : q < st.numPages := h5 q (List.mem_cons_self _ _)
    have hqlen : q < st.pageList.length := by rw [← h1]; exact hqlt
    obtain ⟨pgq, hpgq, hpgqidx⟩ := pageAt_exists (h3 q hqlt)
    have hnext : (st.freeListHeadIndex &&& c_headNextIndexMask) >>> 28 =
        rest.headD c_TailPageIndex := by simpa using h7
    have hqnotrest : q ∉ rest := (List.nodup_cons.mp h4).1
    have hrestnd : rest.Nodup := (List.nodup_cons.mp h4).2
    cases rest with
    | nil =>
      have hTnl : ¬ (c_TailPageIndex < st.numPages) := by omega
      have hguardT : c_TailPageIndex ≠ c_InvalidPageIndex ∧
          c_TailPageIndex ≠ c_SwappingPageIndex := by decide
      have hpop : st.PopPageFromFreeList = some (some q,
          { st with
            freeListHeadIndex := packHeadWord
              (((st.freeListHeadIndex &&& c_headCounterMask) >>> 56 + 1) % 256)
              c_TailPageIndex c_TailPageIndex,
            pageList := st.pageList.set q { pgq with nextFreeIndex := c_InvalidPageIndex } }) := by
        simp only [PagingObjectPool.PopPageFromFreeList]
        rw [hq, hnext]
        simp only [List.headD_nil]
        rw [if_pos hqlt, if_neg hTnl]
        rw [if_pos hguardT, hpgq]
      refine ⟨_, hpop, ?_, ?_⟩
      · have hset : ({ st with
            freeListHeadIndex := packHeadWord
              (((st.freeListHeadIndex &&& c_headCounterMask) >>> 56 + 1) % 256)
              c_TailPageIndex c_TailPageIndex,
            pageList := st.pageList.set q { pgq with nextFreeIndex := c_InvalidPageIndex } } :
            PagingObjectPool).pageList =
            st.pageList.set q { pgq with nextFreeIndex := c_InvalidPageIndex } := rfl
        rw [nextFreeOf_set st _ q _ q hset]
        simp [hqlen]
      · refine ⟨?_, h2, ?_, List.nodup_nil, by simp, ?_, ?_, rfl, ?_⟩
        · simp only [List.length_set]
          exact h1
        · intro i hi
          by_cases hiq : i = q
          · subst hiq
            rw [List.getElem?_set_self (by simpa using hqlen)]
            simpa using hpgqidx
          · rw [List.getElem?_set_ne (fun hc => hiq hc.symm)]
            exact h3 i hi
        · rw [packHeadWord_head _ _ _ (by decide)]
          rfl
        · rw [packHeadWord_next _ _ _ (by decide) (by decide)]
          rfl
        · intro x hx _
          have hset : ({ st with
              freeListHeadIndex := packHeadWord
                (((st.freeListHeadIndex &&& c_headCounterMask) >>> 56 + 1) % 256)
                c_TailPageIndex c_TailPageIndex,
              pageList := st.pageList.set q { pgq with nextFreeIndex := c_InvalidPageIndex } } :
              PagingObjectPool).pageList =
              st.pageList.set q { pgq with nextFreeIndex := c_InvalidPageIndex } := rfl
          rw [nextFreeOf_set st _ q _ x hset]
          by_cases hxq : q = x
          · rw [if_pos ⟨hxq, hqlen⟩]
          · rw [if_neg (fun hc => hxq hc.1)]
            refine h9 x (by simpa using hx) ?_
            intro hc
            rcases List.mem_cons.mp hc with rfl | hc
            · exact hxq rfl
            · simp at hc
    | cons r rest2 =>
      simp only [List.headD_cons] at hnext
      have hrlt : r < st.numPages := h5 r (List.mem_cons_of_mem _ (List.mem_cons_self _ _))
      obtain ⟨pgr, hpgr, hpgridx⟩ := pageAt_exists (h3 r hrlt)
      have hchain2 : st.chainOkB (r :: rest2) = true := by
        have h8' := h8
        unfold PagingObjectPool.chainOkB at h8'
        rw [Bool.and_eq_true] at h8'
        exact h8'.2
      have hpgrnext : pgr.nextFreeIndex = rest2.headD c_TailPageIndex := by
        have := chainOkB_head_next st r rest2 hchain2
        unfold PagingObjectPool.nextFreeOf at this
        rw [hpgr] at this
        exact this
      have hheadbound : rest2.headD c_TailPageIndex = c_TailPageIndex ∨
          rest2.headD c_TailPageIndex < st.numPages := by
        cases rest2 with
        | nil => left; rfl
        | cons s t =>
          right
          simp only [List.headD_cons]
          exact h5 s (by simp)
      have hguard : pgr.nextFreeIndex ≠ c_InvalidPageIndex ∧
          pgr.nextFreeIndex ≠ c_SwappingPageIndex := by
        rw [hpgrnext]
        rcases hheadbound with hcase | hcase
        · rw [hcase]
          decide
        · have hinvv : c_InvalidPageIndex = 268435455 := by decide
          have hswpv : c_SwappingPageIndex = 268435453 := by decide
          omega
      have hpop : st.PopPageFromFreeList = some (some q,
          { st with
            freeListHeadIndex := packHeadWord
              (((st.freeListHeadIndex &&& c_headCounterMask) >>> 56 + 1) % 256)
              pgr.nextFreeIndex r,
            pageList := st.pageList.set q { pgq with nextFreeIndex := c_InvalidPageIndex } }) := by
        simp only [PagingObjectPool.PopPageFromFreeList]
        rw [hq, hnext]
        rw [if_pos hqlt, if_pos hrlt]
        rw [hpgr]
        rw [if_pos hguard, hpgq]
      refine ⟨_, hpop, ?_, ?_⟩
      · have hset : ({ st with
            freeListHeadIndex := packHeadWord
              (((st.freeListHeadIndex &&& c_headCounterMask) >>> 56 + 1) % 256)
              pgr.nextFreeIndex r,
            pageList := st.pageList.set q { pgq with nextFreeIndex := c_InvalidPageIndex } } :
            PagingObjectPool).pageList =
            st.pageList.set q { pgq with nextFreeIndex := c_InvalidPageIndex } := rfl
        rw [nextFreeOf_set st _ q _ q hset]
        simp [hqlen]
      · have hset : ({ st with
            freeListHeadIndex := packHeadWord
              (((st.freeListHeadIndex &&& c_headCounterMask) >>> 56 + 1) % 256)
              pgr.nextFreeIndex r,
            pageList := st.pageList.set q { pgq with nextFreeIndex := c_InvalidPageIndex } } :
            PagingObjectPool).pageList =
            st.pageList.set q { pgq with nextFreeIndex := c_InvalidPageIndex } := rfl
        have hothers : ∀ x, x ≠ q → PagingObjectPool.nextFreeOf { st with
            freeListHeadIndex := packHeadWord
              (((st.freeListHeadIndex &&& c_headCounterMask) >>> 56 + 1) % 256)
              pgr.nextFreeIndex r,
            pageList := st.pageList.set q { pgq with nextFreeIndex := c_InvalidPageIndex } } x =
            st.nextFreeOf x := by
          intro x hxq
          rw [nextFreeOf_set st _ q _ x hset]
          rw [if_neg (fun hc => hxq hc.1.symm)]
        have hrlt28 : r < 2 ^ 28 := by omega
        have hnx28 : pgr.nextFreeIndex < 2 ^ 28 := by
          rw [hpgrnext]
          rcases hheadbound with hcase | hcase
          · rw [hcase]
            decide
          · omega
        refine ⟨?_, h2, ?_, hrestnd, ?_, ?_, ?_, ?_, ?_⟩
        · simp only [List.length_set]
          exact h1
        · intro i hi
          by_cases hiq : i = q
          · subst hiq
            rw [List.getElem?_set_self (by simpa using hqlen)]
            simpa using hpgqidx
          · rw [List.getElem?_set_ne (fun hc => hiq hc.symm)]
            exact h3 i hi
        · intro x hx
          exact h5 x (List.mem_cons_of_mem _ hx)
        · rw [packHeadWord_head _ _ _ hrlt28]
          rfl
        · rw [packHeadWord_next _ _ _ hrlt28 hnx28]
          simp only [List.drop_one, List.tail_cons]
          rw [hpgrnext]
        · rw [chainOkB_congr st _ (r :: rest2)
            (fun x hx => hothers x (fun hc => hqnotrest (hc ▸ hx)))]
          exact hchain2
        · intro x hx hnot
          rw [nextFreeOf_set st _ q _ x hset]
          by_cases hxq : q = x
          · rw [if_pos ⟨hxq, hqlen⟩]
          · rw [if_neg (fun hc => hxq hc.1)]
            refine h9 x (by simpa using hx) ?_
            intro hc
            rcases List.mem_cons.mp hc with rfl | hc
            · exact hxq rfl
            · exact hnot hc


/-- C8: Under the free-list invariant of `PagingObjectPool`, pushing a page
whose `nextFreeIndex` is not `INVALID` aborts without modifying the pool
(double-push prevention); for every live page, `nextFreeIndex = INVALID` holds
iff the page is not currently enqueued on the free-page list (and pushing such
a page succeeds, re-establishing the invariant with the page at the head); Pop
on an empty list returns null leaving the pool unchanged, and Pop on a
nonempty list returns the head page with its `nextFreeIndex` reset to
`INVALID`, re-establishing the invariant for the remaining list. -/
theorem c8_freelist_invariant (st : PagingObjectPool) (fl : List Nat)
    (hinv : FreeListInv st fl) :
    (∀ p, st.nextFreeOf p ≠ c_InvalidPageIndex → st.PushPageToFreeList p = some st) ∧
    (∀ p, p < st.numPages → (st.nextFreeOf p = c_InvalidPageIndex ↔ p ∉ fl)) ∧
    (∀ p, p < st.numPages → st.nextFreeOf p = c_InvalidPageIndex →
      ∃ st2, st.PushPageToFreeList p = some st2 ∧ FreeListInv st2 (p :: fl)) ∧
    (fl = [] → st.PopPageFromFreeList = some (none, st)) ∧
    (∀ q rest, fl = q :: rest → ∃ st2,
      st.PopPageFromFreeList = some (some q, st2) ∧
      st2.nextFreeOf q = c_InvalidPageIndex ∧ FreeListInv st2 rest) :=
  ⟨fun p h => freelist_push_abort st p h,
   fun p hp => freelist_mem_iff st fl hinv p hp,
   fun p hp hf => freelist_push_ok st fl hinv p hp hf,
   (freelist_pop st fl hinv).1,
   (freelist_pop st fl hinv).2⟩

/-- Witness for C8 at the concrete two-page pool `exPool` with free stack
`[0]`: page 0 (on the list, `nextFreeIndex = TAIL`) cannot be double-pushed,
page 1 (off the list) has `nextFreeIndex = INVALID`, and popping returns
page 0 with its `nextFreeIndex` reset to `INVALID` and an empty free list. -/
theorem c8_freelist_invariant_witness :
    exPool.PushPageToFreeList 0 = some exPool ∧
    (exPool.nextFreeOf 1 = c_InvalidPageIndex ↔ 1 ∉ exFreeStack) ∧
    (∃ st2, exPool.PopPageFromFreeList = some (some 0, st2) ∧
      st2.nextFreeOf 0 = c_InvalidPageIndex ∧ FreeListInv st2 []) :=
  have h := c8_freelist_invariant exPool exFreeStack (by decide)
  ⟨h.1 0 (by decide), h.2.1 1 (by decide), h.2.2.2.2 0 [] rfl⟩


end PklE
